import Mathlib

/-!
# Verification of the askly hybrid-search backend

Shallow embedding of the search pipeline of the askly repository
(`backend/app/services/search_service.py`, `backend/app/services/database.py`,
`backend/app/utils/helpers.py`, `backend/ai_service_railway.py`) and proofs of
the specification claims about it.

Conventions of the embedding:
* Python `float` values are modelled as exact rationals (`ℚ`); the literal
  `1.2` of the keyword boost is the rational `6/5`.
* Python strings are modelled as Lean `String`, with the Python `str`
  operations (`lower`, `strip`, `split`, `replace`, `in`) re-implemented
  over explicit character lists so that they compute by kernel reduction.
* External collaborators that are not code of this repository (the MongoDB
  text index, `sklearn`'s `cosine_similarity`, the regex engine, the Groq
  LLM oracle, the embedding model) are parameters of the embedding
  (see `Env` below and the `Except`-typed oracle arguments).
* Python exceptions are modelled with `Except String`; a `try/except`
  block of the source becomes a `match` on the `Except` value.
-/

namespace Askly

/-! ## Python string primitives -/

/-- Python `str.lower()` (character-wise; the repository's data is ASCII). -/
def pyLower (s : String) : String := String.mk (s.data.map Char.toLower)

/-- All suffixes of a character list (used for substring search). -/
def charTails : List Char → List (List Char)
  | [] => [[]]
  | c :: cs => (c :: cs) :: charTails cs

/-- Python `pat in s` for strings: contiguous substring containment. -/
def strContainsSub (s pat : String) : Bool :=
  (charTails s.data).any (fun t => pat.data.isPrefixOf t)

/-- Python `str.strip()` with no argument: drop leading and trailing
whitespace. -/
def pyStrip (s : String) : String :=
  String.mk (((s.data.dropWhile Char.isWhitespace).reverse.dropWhile
    Char.isWhitespace).reverse)

/-- Helper of `pySplitWs`, accumulating the current word reversed. -/
def splitWsAux : List Char → List Char → List String
  | [], acc => if acc.isEmpty then [] else [String.mk acc.reverse]
  | c :: cs, acc =>
    if c.isWhitespace then
      if acc.isEmpty then splitWsAux cs []
      else String.mk acc.reverse :: splitWsAux cs []
    else splitWsAux cs (c :: acc)

/-- Python `str.split()` with no argument: split on runs of whitespace,
no empty fields. -/
def pySplitWs (s : String) : List String := splitWsAux s.data []

/-- Fuelled core of Python `str.replace`: replace every non-overlapping
occurrence of `pat`, scanning left to right.  The fuel is structurally
decreasing so the definition computes by kernel reduction; `pyReplace`
supplies enough fuel (one unit per character) for the scan to finish. -/
def replaceCharsAux (pat repl : List Char) : Nat → List Char → List Char
  | _, [] => []
  | 0, s => s
  | fuel + 1, c :: cs =>
    if !pat.isEmpty && pat.isPrefixOf (c :: cs) then
      repl ++ replaceCharsAux pat repl fuel ((c :: cs).drop pat.length)
    else
      c :: replaceCharsAux pat repl fuel cs

/-- Python `s.replace(pat, repl)` (replaces every occurrence).  Python's
`replace` with an empty pattern behaves differently, but every pattern the
source passes is a keyword of length ≥ 3, so the empty pattern is mapped
to the identity by the guard in `replaceCharsAux`. -/
def pyReplace (s pat repl : String) : String :=
  String.mk (replaceCharsAux pat.data repl.data s.data.length s.data)

/-- Order-preserving deduplication keeping the first occurrence, as Python's
`dict.fromkeys` and (for the purposes of this model) `set` insertion. -/
def dedupFirst (l : List String) : List String :=
  l.foldl (fun acc x => if acc.contains x then acc else acc ++ [x]) []

/-! ## `app/utils/helpers.py` -/

/-- The stop-word set of `extract_keywords` (`helpers.py`). -/
def stop_words : List String :=
  ["the", "a", "an", "and", "or", "but", "in", "on", "at", "to", "for",
   "of", "with", "by", "is", "are", "was", "were", "be", "been", "being",
   "have", "has", "had", "do", "does", "did", "will", "would", "could",
   "should", "this", "that", "these", "those", "i", "you", "he", "she",
   "it", "we", "they", "me", "him", "her", "us", "them"]

/-- A regex word character (`\w`): the repository's data is ASCII, where
`\w = [a-zA-Z0-9_]`. -/
def isWordChar (c : Char) : Bool := c.isAlphanum || c = '_'

/-- Split a character list into its maximal runs of word characters
(the accumulator holds the current run reversed). -/
def wordRunsAux : List Char → List Char → List (List Char)
  | [], acc => if acc.isEmpty then [] else [acc.reverse]
  | c :: cs, acc =>
    if isWordChar c then wordRunsAux cs (c :: acc)
    else if acc.isEmpty then wordRunsAux cs []
    else acc.reverse :: wordRunsAux cs []

/-- Model of `re.findall(r'\b[a-zA-Z]\x7b3,\x7d\b', text)`: a maximal run of word
characters is a match exactly when it is entirely alphabetic and has
length at least 3 (shorter alphabetic prefixes fail the trailing `\b`). -/
def findWords (text : String) : List String :=
  ((wordRunsAux text.data []).filter
    (fun run => 3 ≤ run.length && run.all Char.isAlpha)).map String.mk

/-- Function `extract_keywords` from `app/utils/helpers.py`: lower-case the text,
take the alphabetic words of length ≥ 3, remove stop words, deduplicate
keeping first occurrences, and truncate to `maxKeywords`. -/
def extract_keywords (text : String) (maxKeywords : Nat := 10) : List String :=
  let words := findWords (pyLower text)
  let keywords := words.filter (fun w => !(stop_words.contains w))
  (dedupFirst keywords).take maxKeywords

/-- Function `calculate_similarity_score` from `app/utils/helpers.py`: Jaccard
similarity of the lower-cased whitespace-token sets of the two texts,
with the source's guards for empty inputs. -/
def calculate_similarity_score (text1 text2 : String) : ℚ :=
  if text1 = "" || text2 = "" then 0
  else
    let words1 := dedupFirst (pySplitWs (pyLower text1))
    let words2 := dedupFirst (pySplitWs (pyLower text2))
    let inter := words1.filter (fun w => words2.contains w)
    let union := words1 ++ words2.filter (fun w => !(words1.contains w))
    if union.isEmpty then 0 else (inter.length : ℚ) / (union.length : ℚ)

/-! ## Data model (`app/models/data_models.py`)

`DataRecord` keeps the fields the search pipeline reads.  `content`,
`metadata`, `keywords` and the user-tracking fields are never consulted by
the claims under verification and are omitted.  A Python `None` in an
optional field is `none`; timestamps are integers (epoch order is all the
pipeline uses); `score` is the mutable attribute the strategies attach. -/

structure DataRecord where
  id : String
  title : String
  description : Option String
  tags : List String
  category : Option String
  status : String
  created_at : Int
  search_text : Option String
  embedding : Option (List ℚ)
  score : Option ℚ
deriving Repr, DecidableEq

/-- The dictionary shape every strategy returns
(`{"data", "total_count", "offset", "limit", "returned_count"}`). -/
structure SearchPage where
  data : List DataRecord
  total_count : Nat
  offset : Nat
  limit : Nat
  returned_count : Nat
deriving Repr, DecidableEq

/-- External collaborators of the pipeline that are not code of this
repository: the MongoDB text index (`$text` matching and its
`textScore`), `sklearn.metrics.pairwise.cosine_similarity`, and the
regex engine used by the `$or` regex filters.  The repository's store is
the list of documents in the `structured_data` collection. -/
structure Env where
  store : List DataRecord
  textMatch : String → DataRecord → Bool
  textScore : String → DataRecord → ℚ
  cosSim : List ℚ → List ℚ → ℚ
  regexICase : String → String → Bool

/-! ## Filters and match conditions (`database.py`, `search_records`) -/

/-- The filter values callers pass in the `filters` mapping: plain strings,
string lists, the `date_range` dictionary, and the `$or` regex disjunction
the fuzzy/exact strategies build over `title`/`description`/`search_text`. -/
inductive FilterVal where
  | str (s : String)
  | strList (l : List String)
  | dateRange (start stop : Option Int)
  | orRegex (pattern : String)
deriving Repr, DecidableEq

/-- The conditions `search_records` ends up storing in `match_conditions`. -/
inductive Cond where
  | neStr (v : String)
  | eqStr (v : String)
  | eqStrList (l : List String)
  | inStrList (l : List String)
  | range (lo hi : Option Int)
  | textSearch (q : String)
  | orRegex (pattern : String)
  | eqDict
deriving Repr, DecidableEq

/-- Python dictionary assignment `d[k] = v` on an insertion-ordered
association list: update in place if the key exists, else append. -/
def dictInsert {β : Type} (k : String) (v : β) :
    List (String × β) → List (String × β)
  | [] => [(k, v)]
  | (k', v') :: rest =>
    if k' = k then (k, v) :: rest else (k', v') :: dictInsert k v rest

/-- The `date_range` "end" branch:
`match_conditions.setdefault("created_at", {})["$lte"] = end`.  When the
existing `created_at` entry is a range it gains an upper bound; when the
key is absent a fresh `{"$lte": end}` range is inserted.  (If a caller had
already bound `created_at` to a non-dictionary value the source would
raise a `TypeError` here; no strategy does, and the model inserts a fresh
range in that unreachable corner.) -/
def setLteCreatedAt (e : Int) (conds : List (String × Cond)) :
    List (String × Cond) :=
  match conds.lookup "created_at" with
  | some (Cond.range lo _) => dictInsert "created_at" (Cond.range lo (some e)) conds
  | _ => dictInsert "created_at" (Cond.range none (some e)) conds

/-- One iteration of the `for key, value in filters.items()` loop of
`search_records`. -/
def applyFilter (acc : List (String × Cond)) (kv : String × FilterVal) :
    List (String × Cond) :=
  match kv with
  | ("date_range", FilterVal.dateRange s e) =>
    let acc := match s with
      | some sv => dictInsert "created_at" (Cond.range (some sv) none) acc
      | none => acc
    match e with
    | some ev => setLteCreatedAt ev acc
    | none => acc
  | ("tags", FilterVal.strList l) => dictInsert "tags" (Cond.inStrList l) acc
  | ("categories", FilterVal.strList l) => dictInsert "category" (Cond.inStrList l) acc
  | (k, FilterVal.str v) => dictInsert k (Cond.eqStr v) acc
  | (k, FilterVal.strList l) => dictInsert k (Cond.eqStrList l) acc
  | (k, FilterVal.orRegex p) => dictInsert k (Cond.orRegex p) acc
  | (k, FilterVal.dateRange _ _) => dictInsert k Cond.eqDict acc

/-- The `$match` conditions of `search_records`: start from
`{"status": {"$ne": "deleted"}}`, add `$text` when the stripped query is
non-empty, then fold the caller's filters over the dictionary. -/
def buildMatchConditions (query : String)
    (filters : List (String × FilterVal)) : List (String × Cond) :=
  let conds := [("status", Cond.neStr "deleted")]
  let conds :=
    if pyStrip query = "" then conds
    else dictInsert "$text" (Cond.textSearch query) conds
  filters.foldl applyFilter conds

/-- The value of a document field as seen by the match stage. -/
inductive FieldV where
  | s (v : String)
  | l (v : List String)
  | i (v : Int)
deriving Repr, DecidableEq

/-- Field lookup on a stored document.  `none` covers both a missing field
and a `null` value (for the operators used here the two behave alike,
except `$ne`, which matches both). -/
def recordField (r : DataRecord) : String → Option FieldV
  | "id" => some (.s r.id)
  | "title" => some (.s r.title)
  | "description" => r.description.map .s
  | "tags" => some (.l r.tags)
  | "category" => r.category.map .s
  | "status" => some (.s r.status)
  | "created_at" => some (.i r.created_at)
  | "search_text" => r.search_text.map .s
  | _ => none

/-- MongoDB evaluation of a single match condition on a document. -/
def evalCond (env : Env) (r : DataRecord) (key : String) : Cond → Bool
  | .neStr v =>
    match recordField r key with
    | some (.s x) => x ≠ v
    | some (.l xs) => !(xs.contains v)
    | some (.i _) => true
    | none => true
  | .eqStr v =>
    match recordField r key with
    | some (.s x) => x = v
    | some (.l xs) => xs.contains v
    | _ => false
  | .eqStrList l =>
    match recordField r key with
    | some (.l xs) => xs = l
    | _ => false
  | .inStrList l =>
    match recordField r key with
    | some (.s x) => l.contains x
    | some (.l xs) => xs.any (fun x => l.contains x)
    | _ => false
  | .range lo hi =>
    match recordField r key with
    | some (.i x) =>
      (match lo with | some a => decide (a ≤ x) | none => true)
        && (match hi with | some b => decide (x ≤ b) | none => true)
    | _ => false
  | .textSearch q => env.textMatch q r
  | .orRegex pat =>
    env.regexICase pat r.title
      || (match r.description with | some d => env.regexICase pat d | none => false)
      || (match r.search_text with | some t => env.regexICase pat t | none => false)
  | .eqDict => false

/-- A document passes the `$match` stage when every condition holds. -/
def matchesConds (env : Env) (conds : List (String × Cond))
    (r : DataRecord) : Bool :=
  conds.all (fun kc => evalCond env r kc.1 kc.2)

/-! ## Stable descending sort

Python's `sorted(..., reverse=True)` and `list.sort(..., reverse=True)`
are stable descending sorts; insertion sort placing each element before
the first strictly-smaller-or-equal key it dominates is the same
function. -/

/-- Insert `x` into a descending-sorted list, before the first element
whose key it weakly dominates (stability: `x` comes from earlier in the
original list than everything already inserted). -/
def insertDesc {α : Type} (key : α → ℚ) (x : α) : List α → List α
  | [] => [x]
  | y :: ys => if key y ≤ key x then x :: y :: ys else y :: insertDesc key x ys

/-- Stable descending insertion sort by a rational key. -/
def sortByDesc {α : Type} (key : α → ℚ) (l : List α) : List α :=
  l.foldr (insertDesc key) []

/-! ## `DatabaseService.search_records` (`app/services/database.py`)

All repository call sites use the default sort arguments
(`sort_by="created_at"`, `sort_order=-1`); when a text query is present
the source overrides them to the text score, descending, and attaches the
score to each document via `$addFields`. -/

def search_records (env : Env) (query : String)
    (filters : List (String × FilterVal)) (limit offset : Nat) : SearchPage :=
  let conds := buildMatchConditions query filters
  let matched := env.store.filter (matchesConds env conds)
  let withScores :=
    if pyStrip query = "" then matched
    else matched.map (fun r => { r with score := some (env.textScore query r) })
  let sortedRecs :=
    if pyStrip query = "" then sortByDesc (fun r => (r.created_at : ℚ)) withScores
    else sortByDesc (fun r => r.score.getD 0) withScores
  let page := (sortedRecs.drop offset).take limit
  { data := page
    total_count := matched.length
    offset := offset
    limit := limit
    returned_count := page.length }

/-- Method `SearchService._keyword_search`: a direct delegation to the store. -/
def keyword_search (env : Env) (query : String)
    (filters : List (String × FilterVal)) (limit offset : Nat) : SearchPage :=
  search_records env query filters limit offset

/-! ## `SearchService._semantic_search` -/

/-- The per-record score of the semantic strategy: cosine similarity when
an embedding is present, otherwise the Jaccard fallback on
`f"{record.title} {record.description or ''}"`.  The source's guard is
Python truthiness (`if hasattr(record, 'embedding') and record.embedding`),
so both a missing embedding and an empty list take the fallback. -/
def semanticScore (env : Env) (queryEmbedding : List ℚ) (query : String)
    (r : DataRecord) : ℚ :=
  match r.embedding with
  | some e =>
    if e.isEmpty then
      calculate_similarity_score query (r.title ++ " " ++ r.description.getD "")
    else env.cosSim queryEmbedding e
  | none =>
    calculate_similarity_score query (r.title ++ " " ++ r.description.getD "")

/-- The broad candidate window of the semantic strategy: an empty-query
store search capped at 1000 records, offset 0, with the caller's filters. -/
def semanticCandidateWindow (env : Env)
    (filters : List (String × FilterVal)) : List DataRecord :=
  (search_records env "" filters 1000 0).data

/-- The full scored candidate set of the semantic strategy, sorted
descending by score (every window record is scored; none is excluded). -/
def semanticScoredPool (env : Env) (queryEmbedding : List ℚ) (query : String)
    (filters : List (String × FilterVal)) : List DataRecord :=
  sortByDesc (fun r => r.score.getD 0)
    ((semanticCandidateWindow env filters).map
      (fun r => { r with score := some (semanticScore env queryEmbedding query r) }))

/-- The body of `_semantic_search`: sort the scored set descending and
apply `offset`/`limit` client-side over the full scored set. -/
def semantic_search_core (env : Env) (queryEmbedding : List ℚ) (query : String)
    (filters : List (String × FilterVal)) (limit offset : Nat) : SearchPage :=
  let pool := semanticScoredPool env queryEmbedding query filters
  let page := (pool.drop offset).take limit
  { data := page
    total_count := pool.length
    offset := offset
    limit := limit
    returned_count := page.length }

/-- Method `_semantic_search` with its `except` clause: the strategy's external
failure point is the embedding call (`generate_embeddings`), abstracted as
`embedOracle`; any exception falls back to `_keyword_search` with the same
query and filters. -/
def semantic_search (env : Env) (embedOracle : Except String (List ℚ))
    (query : String) (filters : List (String × FilterVal))
    (limit offset : Nat) : SearchPage :=
  match embedOracle with
  | .ok qe => semantic_search_core env qe query filters limit offset
  | .error _ => keyword_search env query filters limit offset

/-! ## `SearchService._fuzzy_search` and `SearchService._exact_search` -/

/-- The body of `_fuzzy_search`: extract keywords, build the `$or` regex
disjunction `.*kw.*|...` over `title`/`description`/`search_text`, and run
an empty-query store search with the augmented filters. -/
def fuzzy_search_core (env : Env) (query : String)
    (filters : List (String × FilterVal)) (limit offset : Nat) : SearchPage :=
  let keywords := extract_keywords query
  let fuzzyFilters :=
    if keywords.isEmpty then filters
    else
      dictInsert "$or"
        (FilterVal.orRegex
          (String.intercalate "|" (keywords.map (fun k => ".*" ++ k ++ ".*"))))
        filters
  search_records env "" fuzzyFilters limit offset

/-- Method `_fuzzy_search` with its `except` clause; `strategyFail` abstracts
anything inside the body raising. -/
def fuzzy_search (env : Env) (strategyFail : Option String) (query : String)
    (filters : List (String × FilterVal)) (limit offset : Nat) : SearchPage :=
  match strategyFail with
  | none => fuzzy_search_core env query filters limit offset
  | some _ => keyword_search env query filters limit offset

/-- The body of `_exact_search`: a word-boundary regex on the raw query
over the same three fields, as an empty-query store search. -/
def exact_search_core (env : Env) (query : String)
    (filters : List (String × FilterVal)) (limit offset : Nat) : SearchPage :=
  let exactFilters :=
    dictInsert "$or" (FilterVal.orRegex ("\\b" ++ query ++ "\\b")) filters
  search_records env "" exactFilters limit offset

/-- Method `_exact_search` with its `except` clause. -/
def exact_search (env : Env) (strategyFail : Option String) (query : String)
    (filters : List (String × FilterVal)) (limit offset : Nat) : SearchPage :=
  match strategyFail with
  | none => exact_search_core env query filters limit offset
  | some _ => keyword_search env query filters limit offset

/-! ## `SearchService._hybrid_search_combined` -/

/-- An entry of the `combined_results` dictionary:
`{"record": record, "score": score}`. -/
structure Fused where
  record : DataRecord
  score : ℚ
deriving Repr, DecidableEq

/-- One iteration of the keyword loop of `_hybrid_search_combined`:
`combined_results[record.id] = {"record": record, "score": score * 1.2}`.
A record without a score raises (`None * 1.2` is a `TypeError`), which the
strategy's `except` turns into the keyword fallback. -/
def addKeywordRecord (acc : List (String × Fused)) (r : DataRecord) :
    Except String (List (String × Fused)) :=
  match r.score with
  | none => .error "TypeError: NoneType * float"
  | some s => .ok (dictInsert r.id { record := r, score := s * (6 / 5) } acc)

/-- One iteration of the semantic loop: sum into an existing entry
(keeping the keyword record and its dictionary position) or insert a new
one.  A `None` semantic score is modelled as the raising case; in the
source it would instead poison the subsequent sort, and it is unreachable
(the semantic strategy scores every record, and its keyword fallback is
scored exactly when the keyword pass itself was). -/
def addSemanticRecord (acc : List (String × Fused)) (r : DataRecord) :
    Except String (List (String × Fused)) :=
  match r.score with
  | none => .error "TypeError: NoneType + float"
  | some s =>
    match acc.lookup r.id with
    | some f => .ok (dictInsert r.id { f with score := f.score + s } acc)
    | none => .ok (dictInsert r.id { record := r, score := s } acc)

/-- The `combined_results` dictionary after both loops. -/
def buildCombined (kwData semData : List DataRecord) :
    Except String (List (String × Fused)) :=
  match kwData.foldlM addKeywordRecord [] with
  | .error e => .error e
  | .ok acc => semData.foldlM addSemanticRecord acc

/-- The pure effect of one keyword-loop iteration when the record carries
a score (the only case in which the loop does not raise). -/
def addKw1 (acc : List (String × Fused)) (r : DataRecord) :
    List (String × Fused) :=
  dictInsert r.id { record := r, score := r.score.getD 0 * (6 / 5) } acc

/-- The pure effect of one semantic-loop iteration when the record carries
a score. -/
def addSem1 (acc : List (String × Fused)) (r : DataRecord) :
    List (String × Fused) :=
  match acc.lookup r.id with
  | some f => dictInsert r.id { f with score := f.score + r.score.getD 0 } acc
  | none => dictInsert r.id { record := r, score := r.score.getD 0 } acc

/-- The merge rule of the fused pool, written as the claim states it: a
record in both candidate sets gets keyword score × 1.2 plus semantic
score (and keeps the keyword pass's record object); a record in only one
set keeps that set's (possibly boosted) score. -/
def mergeSpec (kw sem : List DataRecord) (idv : String) : Option Fused :=
  match kw.find? (fun r => r.id = idv), sem.find? (fun r => r.id = idv) with
  | some rk, some rs =>
    some { record := rk, score := rk.score.getD 0 * (6 / 5) + rs.score.getD 0 }
  | some rk, none => some { record := rk, score := rk.score.getD 0 * (6 / 5) }
  | none, some rs => some { record := rs, score := rs.score.getD 0 }
  | none, none => none

/-- The body of `_hybrid_search_combined`: keyword and semantic passes at
`2 × limit` candidates each, offset 0; merge by id; sort descending by
fused score (`sorted` is stable on dictionary insertion order); paginate
with the caller's `offset`/`limit`; write the fused score back onto each
returned record. -/
def hybrid_search_combined_core (env : Env)
    (embedOracle : Except String (List ℚ)) (query : String)
    (filters : List (String × FilterVal)) (limit offset : Nat) :
    Except String SearchPage :=
  let keyword_results := keyword_search env query filters (limit * 2) 0
  let semantic_results := semantic_search env embedOracle query filters (limit * 2) 0
  match buildCombined keyword_results.data semantic_results.data with
  | .error e => .error e
  | .ok combined =>
    let sorted_results := sortByDesc (fun f => f.score) (combined.map Prod.snd)
    let paginated := (sorted_results.drop offset).take limit
    let final_records := paginated.map (fun f => { f.record with score := some f.score })
    .ok { data := final_records
          total_count := sorted_results.length
          offset := offset
          limit := limit
          returned_count := final_records.length }

/-- Method `_hybrid_search_combined` with its `except` clause. -/
def hybrid_search_combined (env : Env) (embedOracle : Except String (List ℚ))
    (query : String) (filters : List (String × FilterVal))
    (limit offset : Nat) : SearchPage :=
  match hybrid_search_combined_core env embedOracle query filters limit offset with
  | .ok p => p
  | .error _ => keyword_search env query filters limit offset

/-! ## Result enrichment (`_generate_highlights`, `_generate_suggestions`,
`_generate_facets`) -/

/-- Method `SearchService._generate_highlights`: per field, one separately
highlighted copy of the field's text for each extracted keyword that
occurs case-insensitively in it; `str.replace` rewrites every
case-sensitive occurrence.  The source's `try/except` guards attribute
errors that cannot arise on a `DataRecord` and is not modelled.  The
`if record.description:` truthiness skips both `None` and `""`. -/
def generate_highlights (r : DataRecord) (query : String) :
    List (String × List String) :=
  let keywords := extract_keywords query
  let title_highlights :=
    (keywords.filter (fun kw => strContainsSub (pyLower r.title) (pyLower kw))).map
      (fun kw => pyReplace r.title kw ("<mark>" ++ kw ++ "</mark>"))
  let highlights :=
    if title_highlights.isEmpty then [] else [("title", title_highlights)]
  match r.description with
  | none => highlights
  | some d =>
    if d = "" then highlights
    else
      let desc_highlights :=
        (keywords.filter (fun kw => strContainsSub (pyLower d) (pyLower kw))).map
          (fun kw => pyReplace d kw ("<mark>" ++ kw ++ "</mark>"))
      if desc_highlights.isEmpty then highlights
      else highlights ++ [("description", desc_highlights)]

/-- The list of separately highlighted title variants
`_generate_highlights` produces: one `str.replace` copy of the title per
extracted keyword that occurs case-insensitively in it. -/
def titleVariants (r : DataRecord) (query : String) : List String :=
  ((extract_keywords query).filter
    (fun kw => strContainsSub (pyLower r.title) (pyLower kw))).map
      (fun kw => pyReplace r.title kw ("<mark>" ++ kw ++ "</mark>"))

/-- The list of separately highlighted description variants. -/
def descVariants (d : String) (query : String) : List String :=
  ((extract_keywords query).filter
    (fun kw => strContainsSub (pyLower d) (pyLower kw))).map
      (fun kw => pyReplace d kw ("<mark>" ++ kw ++ "</mark>"))

/-- Method `SearchService._generate_suggestions`.  Python `set` iteration order
is modelled as insertion order; the claims proved below depend only on
counts, which are order-independent.  `aiSuggest` is the LLM oracle
(`suggest_queries`), whose failure the source swallows. -/
def generate_suggestions (query : String) (results : List DataRecord)
    (aiSuggest : Except String (List String)) : List String :=
  let top := results.take 10
  let categories := dedupFirst (top.filterMap (fun r =>
    match r.category with
    | some c => if c = "" then none else some c
    | none => none))
  let tags := dedupFirst (top.foldl (fun acc r => acc ++ r.tags.take 3) [])
  let s1 := (categories.take 3).map (fun c => query ++ " in " ++ c)
  let s2 := (tags.take 3).map (fun t => query ++ " tagged " ++ t)
  let suggestions := s1 ++ s2
  let suggestions :=
    if suggestions.length < 5 then
      suggestions ++ (match aiSuggest with | .ok l => l.take 5 | .error _ => [])
    else suggestions
  suggestions.take 5

/-- A counting dictionary update `d[k] = d.get(k, 0) + 1`. -/
def bumpCount (m : List (String × Nat)) (k : String) : List (String × Nat) :=
  match m.lookup k with
  | some n => dictInsert k (n + 1) m
  | none => dictInsert k 1 m

/-- The facet maps of a response. -/
structure Facets where
  categories : List (String × Nat)
  tags : List (String × Nat)
  status : List (String × Nat)
deriving Repr, DecidableEq

/-- Method `SearchService._generate_facets` over the returned page. -/
def generate_facets (results : List DataRecord) : Facets :=
  results.foldl
    (fun f r =>
      let f := match r.category with
        | some c => if c = "" then f else { f with categories := bumpCount f.categories c }
        | none => f
      let f := r.tags.foldl (fun f t => { f with tags := bumpCount f.tags t }) f
      { f with status := bumpCount f.status r.status })
    { categories := [], tags := [], status := [] }

/-! ## The orchestrator (`SearchService.hybrid_search`) -/

/-- Enumeration `SearchType` from `app/models/search_models.py`. -/
inductive SearchType where
  | semantic
  | keyword
  | hybrid
  | fuzzy
  | exact
deriving Repr, DecidableEq

/-- Model `SearchResult` from `app/models/search_models.py` (fields the claims
read; `content`/`metadata` are payload carried through unchanged and are
omitted).  `score` is a required float: building a result from a record
without a score is a pydantic validation error. -/
structure SearchResult where
  id : String
  title : String
  description : Option String
  tags : List String
  category : Option String
  score : ℚ
  highlights : List (String × List String)
  created_at : Int
deriving Repr, DecidableEq

/-- Model `SearchResponse` from `app/models/search_models.py`.
`processing_time` is wall-clock time and `insights` is never set by this
core; both are omitted.  The shape has no error field. -/
structure SearchResponse where
  query : String
  search_type : SearchType
  results : List SearchResult
  total_count : Nat
  returned_count : Nat
  offset : Nat
  limit : Nat
  suggestions : List String
  facets : Facets
deriving Repr, DecidableEq

/-- The `min_score` filter loop of `hybrid_search`
(`score = getattr(r, 'score', 0.0); if score >= min_score: keep`).  The
`score` attribute always exists on a `DataRecord`, so the `getattr`
default is dead and a `None` score raises a `TypeError` on comparison. -/
def filterMinScore (min_score : ℚ) : List DataRecord →
    Except String (List DataRecord)
  | [] => .ok []
  | r :: rs =>
    match r.score with
    | none => .error "TypeError: NoneType >= float"
    | some s =>
      match filterMinScore min_score rs with
      | .error e => .error e
      | .ok rest => .ok (if min_score ≤ s then r :: rest else rest)

/-- Construction of one `SearchResult` from a record
(`SearchResult(score=getattr(record, 'score', 0.0), ...)`); a missing
score is a pydantic validation error on the required float field. -/
def toSearchResult (query : String) (r : DataRecord) :
    Except String SearchResult :=
  match r.score with
  | none => .error "ValidationError: score"
  | some s =>
    .ok { id := r.id
          title := r.title
          description := r.description
          tags := r.tags
          category := r.category
          score := s
          highlights := generate_highlights r query
          created_at := r.created_at }

/-- The `try` body of `SearchService.hybrid_search`.  The AI query
preprocessing and the strategy dispatch are abstracted into `strat`, the
outcome of the chosen strategy call (the `.error` case is any exception
escaping that path, e.g. the store raising under the keyword strategy). -/
def hybrid_search_response_core (query : String) (st : SearchType)
    (strat : Except String SearchPage)
    (aiSuggest : Except String (List String)) (limit offset : Nat)
    (min_score : ℚ) : Except String SearchResponse :=
  match strat with
  | .error e => .error e
  | .ok page =>
    match (if 0 < min_score then filterMinScore min_score page.data
           else Except.ok page.data) with
    | .error e => .error e
    | .ok filtered =>
      match filtered.mapM (toSearchResult query) with
      | .error e => .error e
      | .ok results =>
        .ok { query := query
              search_type := st
              results := results
              total_count := page.total_count
              returned_count := results.length
              offset := offset
              limit := limit
              suggestions := generate_suggestions query filtered aiSuggest
              facets := generate_facets filtered }

/-- The neutral envelope of the orchestrator's `except` branch. -/
def emptyResponse (query : String) (st : SearchType) (offset limit : Nat) :
    SearchResponse :=
  { query := query
    search_type := st
    results := []
    total_count := 0
    returned_count := 0
    offset := offset
    limit := limit
    suggestions := []
    facets := { categories := [], tags := [], status := [] } }

/-- Method `SearchService.hybrid_search`: the orchestrator never raises; any
exception inside becomes the empty envelope. -/
def hybrid_search (query : String) (st : SearchType)
    (strat : Except String SearchPage)
    (aiSuggest : Except String (List String)) (limit offset : Nat)
    (min_score : ℚ) : SearchResponse :=
  match hybrid_search_response_core query st strat aiSuggest limit offset min_score with
  | .ok resp => resp
  | .error _ => emptyResponse query st offset limit

/-! ## The query interpreter (`backend/ai_service_railway.py`,
`AIService.process_search_query`)

`json.loads` is external standard-library code; it is modelled by a small
recursive-descent parser for the JSON fragment exercised here (objects,
arrays, strings without escapes, integers, booleans, null), which rejects
trailing non-whitespace like the real parser. -/

/-- JSON values. -/
inductive Json where
  | null
  | bool (b : Bool)
  | num (n : Int)
  | str (s : String)
  | arr (elems : List Json)
  | obj (fields : List (String × Json))

/-- Drop leading whitespace. -/
def skipWs : List Char → List Char
  | [] => []
  | c :: cs => if c.isWhitespace then skipWs cs else c :: cs

/-- Parse a string literal body after the opening quote (no escapes). -/
def parseStringLit : List Char → Option (String × List Char)
  | [] => none
  | c :: cs =>
    if c = '"' then some ("", cs)
    else
      match parseStringLit cs with
      | some (s, rest) => some (String.mk (c :: s.data), rest)
      | none => none

/-- Parse a non-empty digit run. -/
def parseDigits : List Char → Option (Nat × List Char)
  | [] => none
  | c :: cs =>
    if c.isDigit then
      match parseDigits cs with
      | some (n, rest) => some ((c.toNat - '0'.toNat) * 10 ^ (cs.length - rest.length) + n, rest)
      | none => some (c.toNat - '0'.toNat, cs)
    else none

/-- Parse an optionally signed integer literal. -/
def parseIntLit : List Char → Option (Json × List Char)
  | [] => none
  | c :: cs =>
    if c = '-' then
      match parseDigits cs with
      | some (n, rest) => some (Json.num (-(n : Int)), rest)
      | none => none
    else
      match parseDigits (c :: cs) with
      | some (n, rest) => some (Json.num (n : Int), rest)
      | none => none

/-- Parser state: a value, the member loop of an object, or the element
loop of an array. -/
inductive PMode where
  | value
  | members (acc : List (String × Json))
  | elems (acc : List Json)

/-- Fuelled recursive-descent JSON parser (the fuel is structural so the
parser computes by kernel reduction; `jsonLoads` supplies enough). -/
def parseJ : Nat → PMode → List Char → Option (Json × List Char)
  | 0, _, _ => none
  | fuel + 1, PMode.value, cs =>
    match skipWs cs with
    | [] => none
    | c :: rest =>
      if c = '"' then
        match parseStringLit rest with
        | some (s, r) => some (Json.str s, r)
        | none => none
      else if c = '{' then
        match skipWs rest with
        | '}' :: r => some (Json.obj [], r)
        | r => parseJ fuel (PMode.members []) r
      else if c = '[' then
        match skipWs rest with
        | ']' :: r => some (Json.arr [], r)
        | r => parseJ fuel (PMode.elems []) r
      else if "true".data.isPrefixOf (c :: rest) then
        some (Json.bool true, (c :: rest).drop 4)
      else if "false".data.isPrefixOf (c :: rest) then
        some (Json.bool false, (c :: rest).drop 5)
      else if "null".data.isPrefixOf (c :: rest) then
        some (Json.null, (c :: rest).drop 4)
      else parseIntLit (c :: rest)
  | fuel + 1, PMode.members acc, cs =>
    match skipWs cs with
    | '"' :: rest =>
      match parseStringLit rest with
      | some (k, r1) =>
        match skipWs r1 with
        | ':' :: r2 =>
          match parseJ fuel PMode.value r2 with
          | some (v, r3) =>
            match skipWs r3 with
            | ',' :: r4 => parseJ fuel (PMode.members (acc ++ [(k, v)])) r4
            | '}' :: r4 => some (Json.obj (acc ++ [(k, v)]), r4)
            | _ => none
          | none => none
        | _ => none
      | none => none
    | _ => none
  | fuel + 1, PMode.elems acc, cs =>
    match parseJ fuel PMode.value cs with
    | some (v, r1) =>
      match skipWs r1 with
      | ',' :: r2 => parseJ fuel (PMode.elems (acc ++ [v])) r2
      | ']' :: r2 => some (Json.arr (acc ++ [v]), r2)
      | _ => none
    | none => none

/-- Model of `json.loads`: parse one value and require only whitespace after it. -/
def jsonLoads (s : String) : Option Json :=
  match parseJ (2 * s.length + 2) PMode.value s.data with
  | some (v, rest) => if (skipWs rest).isEmpty then some v else none
  | none => none

/-- Python `s.find(pat)` as an option (index of the first occurrence). -/
def findSubIdx (s pat : List Char) : Option Nat :=
  (List.range (s.length + 1)).find? (fun i => pat.isPrefixOf (s.drop i))

/-- Python `s.find(c, start)` as an option. -/
def findCharFrom (s : List Char) (c : Char) (start : Nat) : Option Nat :=
  match (s.drop start).findIdx? (fun x => x = c) with
  | some j => some (start + j)
  | none => none

/-- Python `s.rfind(c)` as an option (index of the last occurrence). -/
def rfindChar (s : List Char) (c : Char) : Option Nat :=
  match s.reverse.findIdx? (fun x => x = c) with
  | some j => some (s.length - 1 - j)
  | none => none

/-- Python slicing `s[a:b]` for non-negative bounds. -/
def pySlice (s : List Char) (a b : Nat) : List Char := (s.take b).drop a

/-- The source's `json_end` computation of the fenced branch: the index
one past the last closing brace, where Python's `rfind` returns `-1` for
a missing brace, making `json_end` equal to `0`. -/
def rbraceEnd (content : String) : Nat :=
  match rfindChar content.data '}' with
  | some k => k + 1
  | none => 0

/-- The outcome of `process_search_query`: either the parsed JSON object
after the source's `original_query`/`processed_at` augmentation, or the
degraded dictionary of the `except` branch, whose observable fields are
`keywords`, `confidence` and `error`. -/
inductive InterpretResult where
  | parsed (j : Json)
  | degraded (keywords : List String) (confidence : ℚ) (error : String)

/-- The `try` body of `process_search_query` after the oracle replied:
strip; reject empty; direct parse; then, when the reply contains a
```json fence, parse from the first brace at or after the fence to one
past the last closing brace (Python's `rfind` returns `-1` when absent,
making `json_end` equal to `0`, which still passes the source's
`json_end != -1` test); otherwise, when the reply contains both braces,
parse from the first opening brace to one past the last closing brace;
otherwise raise. -/
def process_search_query_core (raw : String) : Except String Json :=
  let content := pyStrip raw
  if content = "" then .error "Empty AI response"
  else
    match jsonLoads content with
    | some j => .ok j
    | none =>
      let cs := content.data
      if strContainsSub content "```json" then
        match findCharFrom cs '{' ((findSubIdx cs "```json".data).getD 0) with
        | some js =>
          match jsonLoads (String.mk (pySlice cs js (rbraceEnd content))) with
          | some j => .ok j
          | none => .error "JSONDecodeError"
        | none => .error "No valid JSON found in markdown"
      else if strContainsSub content "\x7b" && strContainsSub content "\x7d" then
        let js := (cs.findIdx? (fun c => c = '{')).getD 0
        let je := ((rfindChar cs '}').getD 0) + 1
        match jsonLoads (String.mk (pySlice cs js je)) with
        | some j => .ok j
        | none => .error "JSONDecodeError"
      else .error "No valid JSON found"

/-- Lines 118-119 of the source, still inside the outer `try`:
`result["original_query"] = query` followed by
`result["processed_at"] = datetime.utcnow().isoformat()` (the timestamp
string is the `now` parameter).  Python dict item assignment updates an
existing key in place or appends a new one; when the parsed value is not
a dict (a bare number, string, array, boolean or null), the first
assignment raises `TypeError`, caught by the enclosing `except` (the
message is abstracted to "TypeError", matching the abstraction of the
decode-error message). -/
def augmentResult (query now : String) : Json → Except String Json
  | Json.obj kvs =>
    Except.ok (Json.obj (dictInsert "processed_at" (Json.str now)
      (dictInsert "original_query" (Json.str query) kvs)))
  | Json.null => Except.error "TypeError"
  | Json.bool _ => Except.error "TypeError"
  | Json.num _ => Except.error "TypeError"
  | Json.str _ => Except.error "TypeError"
  | Json.arr _ => Except.error "TypeError"

/-- Method `AIService.process_search_query`: the oracle call, the parsing
cascade and the `original_query`/`processed_at` augmentation under one
`except`, which degrades to
`{keywords: query.split(), confidence: 0.5, error: str(e)}`. -/
def process_search_query (oracleReply : Except String String)
    (query now : String) : InterpretResult :=
  match oracleReply with
  | .error e => InterpretResult.degraded (pySplitWs query) (1 / 2) e
  | .ok raw =>
    match process_search_query_core raw with
    | .ok j =>
      match augmentResult query now j with
      | .ok j2 => InterpretResult.parsed j2
      | .error e => InterpretResult.degraded (pySplitWs query) (1 / 2) e
    | .error e => InterpretResult.degraded (pySplitWs query) (1 / 2) e

/-- Modelled from the spec's parsing-policy wording: "locate the first
`{`...last `}` substring", as a function of the reply. -/
def sliceFirstToLast (content : String) : String :=
  let cs := content.data
  String.mk (pySlice cs ((cs.findIdx? (fun c => c = '{')).getD 0)
    (((rfindChar cs '}').getD 0) + 1))

/-- Modelled from the spec's highlight wording: replace only the first
occurrence of `pat` in `s` ("wrap the first literal occurrence in a
marker"); Python's `str.replace`, used by the source, replaces every
occurrence. -/
def replaceFirstChars (pat repl : List Char) : Nat → List Char → List Char
  | _, [] => []
  | 0, s => s
  | fuel + 1, c :: cs =>
    if !pat.isEmpty && pat.isPrefixOf (c :: cs) then
      repl ++ (c :: cs).drop pat.length
    else c :: replaceFirstChars pat repl fuel cs

/-- Replace the first occurrence of `pat` in `s` by `repl`. -/
def replaceFirst (s pat repl : String) : String :=
  String.mk (replaceFirstChars pat.data repl.data s.data.length s.data)

/-- The successful image of one record under `toSearchResult`. -/
def searchResultOf (query : String) (r : DataRecord) : SearchResult :=
  { id := r.id
    title := r.title
    description := r.description
    tags := r.tags
    category := r.category
    score := r.score.getD 0
    highlights := generate_highlights r query
    created_at := r.created_at }

/-! ## Concrete fixtures used by witnesses and counterexamples -/

/-- A concrete environment whose external collaborators are constant
functions: every record text-matches, text scores are 1, every cosine
similarity is `cos`, every regex matches. -/
def mkEnv (store : List DataRecord) (cos : ℚ) : Env :=
  { store := store
    textMatch := fun _ _ => true
    textScore := fun _ _ => 1
    cosSim := fun _ _ => cos
    regexICase := fun _ _ => true }

/-- A soft-deleted record. -/
def recDel : DataRecord :=
  { id := "r1", title := "title one", description := none, tags := [],
    category := none, status := "deleted", created_at := 0,
    search_text := none, embedding := none, score := none }

/-- An active record carrying an embedding. -/
def recE : DataRecord :=
  { id := "e1", title := "alpha beta", description := none, tags := [],
    category := none, status := "active", created_at := 0,
    search_text := none, embedding := some [1], score := none }

/-- An active record already carrying a search score. -/
def recS : DataRecord :=
  { id := "s1", title := "alpha", description := none, tags := [],
    category := none, status := "active", created_at := 0,
    search_text := none, embedding := none, score := some 1 }

/-- A one-record strategy page around `recS`. -/
def pageS : SearchPage :=
  { data := [recS], total_count := 1, offset := 0, limit := 5,
    returned_count := 1 }

/-- An active record without an embedding whose title repeats a word. -/
def recCat : DataRecord :=
  { id := "t1", title := "cat cat", description := none, tags := [],
    category := none, status := "active", created_at := 0,
    search_text := none, embedding := none, score := none }

/-! ## Supporting lemmas -/

theorem insertDesc_perm {α : Type} (key : α → ℚ) (x : α) (l : List α) :
    List.Perm (insertDesc key x l) (x :: l) := by
  induction l with
  | nil => rfl
  | cons y ys ih =>
    by_cases h : key y ≤ key x
    · simp [insertDesc, h]
    · simp only [insertDesc, if_neg h]
      exact (List.Perm.cons y ih).trans (List.Perm.swap x y ys)

theorem sortByDesc_perm {α : Type} (key : α → ℚ) (l : List α) :
    List.Perm (sortByDesc key l) l := by
  induction l with
  | nil => rfl
  | cons x xs ih =>
    exact (insertDesc_perm key x (sortByDesc key xs)).trans (List.Perm.cons x ih)

theorem insertDesc_sorted {α : Type} (key : α → ℚ) (x : α) {l : List α}
    (hl : l.Sorted (fun a b => key b ≤ key a)) :
    (insertDesc key x l).Sorted (fun a b => key b ≤ key a) := by
  induction l with
  | nil => simp [insertDesc]
  | cons y ys ih =>
    rcases List.sorted_cons.mp hl with ⟨hy, hys⟩
    by_cases h : key y ≤ key x
    · simp only [insertDesc, if_pos h]
      refine List.sorted_cons.mpr ⟨?_, hl⟩
      intro b hb
      rcases List.mem_cons.mp hb with hb | hb
      · exact hb ▸ h
      · exact le_trans (hy b hb) h
    · simp only [insertDesc, if_neg h]
      refine List.sorted_cons.mpr ⟨?_, ih hys⟩
      intro b hb
      have hb' := (insertDesc_perm key x ys).mem_iff.mp hb
      rcases List.mem_cons.mp hb' with hb' | hb'
      · exact hb' ▸ le_of_not_le h
      · exact hy b hb'

theorem sortByDesc_sorted {α : Type} (key : α → ℚ) (l : List α) :
    (sortByDesc key l).Sorted (fun a b => key b ≤ key a) := by
  induction l with
  | nil => simp [sortByDesc]
  | cons x xs ih => exact insertDesc_sorted key x ih

theorem sortByDesc_mem {α : Type} (key : α → ℚ) (l : List α) (x : α) :
    x ∈ sortByDesc key l ↔ x ∈ l :=
  (sortByDesc_perm key l).mem_iff

theorem sortByDesc_length {α : Type} (key : α → ℚ) (l : List α) :
    (sortByDesc key l).length = l.length :=
  (sortByDesc_perm key l).length_eq

/-! ## Supporting lemmas about the orchestrator -/

theorem toSearchResult_eq_of_isSome (query : String) (r : DataRecord)
    (h : r.score.isSome) :
    toSearchResult query r = Except.ok (searchResultOf query r) := by
  rcases hs : r.score with _ | s
  · rw [hs] at h; simp at h
  · simp [toSearchResult, searchResultOf, hs]

theorem mapM_toSearchResult_eq (query : String) (l : List DataRecord)
    (h : ∀ r ∈ l, r.score.isSome) :
    l.mapM (toSearchResult query) = Except.ok (l.map (searchResultOf query)) := by
  induction l with
  | nil => rfl
  | cons r rs ih =>
    have hr := h r (List.mem_cons_self r rs)
    have hrest := ih (fun x hx => h x (List.mem_cons_of_mem r hx))
    simp only [List.mapM_cons, toSearchResult_eq_of_isSome query r hr, hrest,
      List.map_cons]
    rfl

theorem filterMinScore_eq_filter (m : ℚ) (l : List DataRecord)
    (h : ∀ r ∈ l, r.score.isSome) :
    filterMinScore m l =
      Except.ok (l.filter (fun r => decide (m ≤ r.score.getD 0))) := by
  induction l with
  | nil => rfl
  | cons r rs ih =>
    have hr := h r (List.mem_cons_self r rs)
    have hrest := ih (fun x hx => h x (List.mem_cons_of_mem r hx))
    rcases hs : r.score with _ | s
    · rw [hs] at hr; simp at hr
    · simp only [filterMinScore, hs, hrest, List.filter_cons]
      by_cases hm : m ≤ s
      · simp [hs, hm]
      · simp [hs, hm]

theorem hybrid_search_error (query : String) (st : SearchType)
    (aiSuggest : Except String (List String)) (limit offset : Nat)
    (min_score : ℚ) (e : String) :
    hybrid_search query st (Except.error e) aiSuggest limit offset min_score =
      emptyResponse query st offset limit := rfl

theorem hybrid_search_ok_spec (query : String) (st : SearchType)
    (page : SearchPage) (aiSuggest : Except String (List String))
    (limit offset : Nat) (min_score : ℚ) (filtered : List DataRecord)
    (hf : (if 0 < min_score then filterMinScore min_score page.data
            else Except.ok page.data) = Except.ok filtered)
    (hall : ∀ r ∈ filtered, r.score.isSome) :
    hybrid_search query st (Except.ok page) aiSuggest limit offset min_score =
      { query := query
        search_type := st
        results := filtered.map (searchResultOf query)
        total_count := page.total_count
        returned_count := (filtered.map (searchResultOf query)).length
        offset := offset
        limit := limit
        suggestions := generate_suggestions query filtered aiSuggest
        facets := generate_facets filtered } := by
  simp only [hybrid_search, hybrid_search_response_core, hf,
    mapM_toSearchResult_eq query filtered hall]

theorem hybrid_search_filter_error (query : String) (st : SearchType)
    (page : SearchPage) (aiSuggest : Except String (List String))
    (limit offset : Nat) (min_score : ℚ) (e : String)
    (hf : (if 0 < min_score then filterMinScore min_score page.data
            else Except.ok page.data) = Except.error e) :
    hybrid_search query st (Except.ok page) aiSuggest limit offset min_score =
      emptyResponse query st offset limit := by
  simp only [hybrid_search, hybrid_search_response_core, hf]

theorem hybrid_search_mapM_error (query : String) (st : SearchType)
    (page : SearchPage) (aiSuggest : Except String (List String))
    (limit offset : Nat) (min_score : ℚ) (filtered : List DataRecord)
    (e : String)
    (hf : (if 0 < min_score then filterMinScore min_score page.data
            else Except.ok page.data) = Except.ok filtered)
    (hr : filtered.mapM (toSearchResult query) = Except.error e) :
    hybrid_search query st (Except.ok page) aiSuggest limit offset min_score =
      emptyResponse query st offset limit := by
  simp only [hybrid_search, hybrid_search_response_core, hf, hr]

theorem filterMinScore_error (m : ℚ) (l : List DataRecord)
    (h : ¬ ∀ r ∈ l, r.score.isSome) :
    ∃ e, filterMinScore m l = Except.error e := by
  induction l with
  | nil => exact absurd (by intro r hr; simp at hr) h
  | cons r rs ih =>
    rcases hs : r.score with _ | s
    · exact ⟨"TypeError: NoneType >= float", by simp [filterMinScore, hs]⟩
    · have hrs : ¬ ∀ x ∈ rs, x.score.isSome := by
        intro hall
        exact h (fun x hx => by
          rcases List.mem_cons.mp hx with hx | hx
          · subst hx; simp [hs]
          · exact hall x hx)
      obtain ⟨e, he⟩ := ih hrs
      exact ⟨e, by simp [filterMinScore, hs, he]⟩

theorem generate_suggestions_le_five (query : String)
    (results : List DataRecord) (aiSuggest : Except String (List String)) :
    (generate_suggestions query results aiSuggest).length ≤ 5 := by
  unfold generate_suggestions
  split
  · exact List.length_take_le 5 _
  · exact List.length_take_le 5 _

/-! ## Claim theorems: orchestrator-level claims -/

/-- C10: every `SearchResponse` produced by the search entry point —
including the degraded response of the internal `except` branch — has
`returned_count` equal to the length of its results list, echoes the
caller's `query`, `search_type`, `offset` and `limit` unchanged, and
carries at most 5 suggestions. -/
theorem C10_response_invariants (query : String) (st : SearchType)
    (strat : Except String SearchPage)
    (aiSuggest : Except String (List String)) (limit offset : Nat)
    (min_score : ℚ) :
    (hybrid_search query st strat aiSuggest limit offset min_score).returned_count
        = (hybrid_search query st strat aiSuggest limit offset min_score).results.length ∧
    (hybrid_search query st strat aiSuggest limit offset min_score).query = query ∧
    (hybrid_search query st strat aiSuggest limit offset min_score).search_type = st ∧
    (hybrid_search query st strat aiSuggest limit offset min_score).offset = offset ∧
    (hybrid_search query st strat aiSuggest limit offset min_score).limit = limit ∧
    (hybrid_search query st strat aiSuggest limit offset min_score).suggestions.length ≤ 5 := by
  rcases strat with e | page
  · rw [hybrid_search_error]
    exact ⟨rfl, rfl, rfl, rfl, rfl, by simp [emptyResponse]⟩
  · rcases hf : (if 0 < min_score then filterMinScore min_score page.data
        else Except.ok page.data) with e | filtered
    · rw [hybrid_search_filter_error query st page aiSuggest limit offset min_score e hf]
      exact ⟨rfl, rfl, rfl, rfl, rfl, by simp [emptyResponse]⟩
    · rcases hr : filtered.mapM (toSearchResult query) with e | results
      · rw [hybrid_search_mapM_error query st page aiSuggest limit offset
          min_score filtered e hf hr]
        exact ⟨rfl, rfl, rfl, rfl, rfl, by simp [emptyResponse]⟩
      · have hspec : hybrid_search query st (Except.ok page) aiSuggest limit offset min_score =
            { query := query
              search_type := st
              results := results
              total_count := page.total_count
              returned_count := results.length
              offset := offset
              limit := limit
              suggestions := generate_suggestions query filtered aiSuggest
              facets := generate_facets filtered } := by
          simp only [hybrid_search, hybrid_search_response_core, hf, hr]
        rw [hspec]
        exact ⟨rfl, rfl, rfl, rfl, rfl,
          generate_suggestions_le_five query filtered aiSuggest⟩

/-- C2: an exception inside the semantic, fuzzy, or exact strategy falls
back to the keyword strategy with the same query and filters; and when the
search as a whole fails (the `.error` strategy outcome, covering a keyword
failure), the orchestrator does not raise but returns the empty envelope
with `results = []`, `total_count = 0`, `returned_count = 0` — a shape
with no error field. -/
theorem C2_failure_fallback :
    (∀ (env : Env) (e query : String) (filters : List (String × FilterVal))
        (limit offset : Nat),
      semantic_search env (Except.error e) query filters limit offset =
        keyword_search env query filters limit offset) ∧
    (∀ (env : Env) (e query : String) (filters : List (String × FilterVal))
        (limit offset : Nat),
      fuzzy_search env (some e) query filters limit offset =
        keyword_search env query filters limit offset) ∧
    (∀ (env : Env) (e query : String) (filters : List (String × FilterVal))
        (limit offset : Nat),
      exact_search env (some e) query filters limit offset =
        keyword_search env query filters limit offset) ∧
    (∀ (query : String) (st : SearchType)
        (aiSuggest : Except String (List String)) (limit offset : Nat)
        (min_score : ℚ) (e : String),
      hybrid_search query st (Except.error e) aiSuggest limit offset min_score =
        emptyResponse query st offset limit) ∧
    (∀ (query : String) (st : SearchType) (offset limit : Nat),
      (emptyResponse query st offset limit).results = [] ∧
      (emptyResponse query st offset limit).total_count = 0 ∧
      (emptyResponse query st offset limit).returned_count = 0) := by
  refine ⟨fun _ _ _ _ _ _ => rfl, fun _ _ _ _ _ _ => rfl,
    fun _ _ _ _ _ _ => rfl, fun _ _ _ _ _ _ _ => rfl,
    fun _ _ _ _ => ⟨rfl, rfl, rfl⟩⟩

/-- C4: with `min_score > 0`, candidates scoring below `min_score` are
removed after fusion and before `returned_count` is computed: the results
list and `returned_count` reflect only candidates with score ≥
`min_score`, while `total_count` still reflects the pre-filter pool
size. -/
theorem C4_min_score_filter (query : String) (st : SearchType)
    (page : SearchPage) (aiSuggest : Except String (List String))
    (limit offset : Nat) (min_score : ℚ)
    (hpos : 0 < min_score)
    (hall : ∀ r ∈ page.data, r.score.isSome) :
    (hybrid_search query st (Except.ok page) aiSuggest limit offset min_score).results
        = (page.data.filter (fun r => decide (min_score ≤ r.score.getD 0))).map
            (searchResultOf query) ∧
    (hybrid_search query st (Except.ok page) aiSuggest limit offset min_score).returned_count
        = (page.data.filter (fun r => decide (min_score ≤ r.score.getD 0))).length ∧
    (hybrid_search query st (Except.ok page) aiSuggest limit offset min_score).total_count
        = page.total_count := by
  have hf : (if 0 < min_score then filterMinScore min_score page.data
      else Except.ok page.data)
      = Except.ok (page.data.filter (fun r => decide (min_score ≤ r.score.getD 0))) := by
    rw [if_pos hpos]
    exact filterMinScore_eq_filter min_score page.data hall
  have hallf : ∀ r ∈ page.data.filter (fun r => decide (min_score ≤ r.score.getD 0)),
      r.score.isSome := fun r hr => hall r (List.mem_of_mem_filter hr)
  have hspec := hybrid_search_ok_spec query st page aiSuggest limit offset
    min_score _ hf hallf
  rw [hspec]
  exact ⟨rfl, by simp, rfl⟩

/-- Auxiliary instance of the C4 statement at a concrete input, with every
hypothesis discharged. -/
theorem C4_min_score_filter_witness :
    (0 : ℚ) < 1 ∧
    (∀ r ∈ pageS.data, r.score.isSome) ∧
    ((hybrid_search "q" SearchType.keyword (Except.ok pageS)
        (Except.ok []) 5 0 1).results
      = (pageS.data.filter (fun r => decide ((1 : ℚ) ≤ r.score.getD 0))).map
          (searchResultOf "q") ∧
    (hybrid_search "q" SearchType.keyword (Except.ok pageS)
        (Except.ok []) 5 0 1).returned_count
      = (pageS.data.filter (fun r => decide ((1 : ℚ) ≤ r.score.getD 0))).length ∧
    (hybrid_search "q" SearchType.keyword (Except.ok pageS)
        (Except.ok []) 5 0 1).total_count = pageS.total_count) :=
  ⟨by norm_num, by decide,
    C4_min_score_filter "q" SearchType.keyword pageS (Except.ok []) 5 0 1
      (by norm_num) (by decide)⟩

/-- C8: for two otherwise identical search calls with `min_score` values
`a < b`, the set of result ids returned for `b` is a subset of the set of
result ids returned for `a`. -/
theorem C8_min_score_monotonicity (query : String) (st : SearchType)
    (strat : Except String SearchPage)
    (aiSuggest : Except String (List String)) (limit offset : Nat)
    (a b : ℚ) (hab : a < b) :
    (hybrid_search query st strat aiSuggest limit offset b).results.map SearchResult.id ⊆
      (hybrid_search query st strat aiSuggest limit offset a).results.map SearchResult.id := by
  intro i hi
  rcases strat with e | page
  · rw [hybrid_search_error] at hi
    simp [emptyResponse] at hi
  · by_cases hb : 0 < b
    · by_cases hball : ∀ r ∈ page.data, r.score.isSome
      · have hfb : (if 0 < b then filterMinScore b page.data
            else Except.ok page.data)
            = Except.ok (page.data.filter (fun r => decide (b ≤ r.score.getD 0))) := by
          rw [if_pos hb]
          exact filterMinScore_eq_filter b page.data hball
        have hallb : ∀ r ∈ page.data.filter (fun r => decide (b ≤ r.score.getD 0)),
            r.score.isSome := fun r hr => hball r (List.mem_of_mem_filter hr)
        rw [hybrid_search_ok_spec query st page aiSuggest limit offset b _ hfb hallb] at hi
        simp only [List.map_map, List.mem_map, Function.comp] at hi
        obtain ⟨r, hr, hrid⟩ := hi
        have hr' := List.mem_filter.mp hr
        have hbr : b ≤ r.score.getD 0 := of_decide_eq_true hr'.2
        by_cases ha : 0 < a
        · have hfa : (if 0 < a then filterMinScore a page.data
              else Except.ok page.data)
              = Except.ok (page.data.filter (fun r => decide (a ≤ r.score.getD 0))) := by
            rw [if_pos ha]
            exact filterMinScore_eq_filter a page.data hball
          have halla : ∀ r ∈ page.data.filter (fun r => decide (a ≤ r.score.getD 0)),
              r.score.isSome := fun r hr => hball r (List.mem_of_mem_filter hr)
          rw [hybrid_search_ok_spec query st page aiSuggest limit offset a _ hfa halla]
          simp only [List.map_map, List.mem_map, Function.comp]
          refine ⟨r, List.mem_filter.mpr ⟨hr'.1, ?_⟩, hrid⟩
          exact decide_eq_true (le_trans (le_of_lt hab) hbr)
        · have hfa : (if 0 < a then filterMinScore a page.data
              else Except.ok page.data) = Except.ok page.data := by
            rw [if_neg ha]
          rw [hybrid_search_ok_spec query st page aiSuggest limit offset a _ hfa hball]
          simp only [List.map_map, List.mem_map, Function.comp]
          exact ⟨r, hr'.1, hrid⟩
      · obtain ⟨e, he⟩ := filterMinScore_error b page.data hball
        rw [hybrid_search_filter_error query st page aiSuggest limit offset b e
          (by rw [if_pos hb]; exact he)] at hi
        simp [emptyResponse] at hi
    · have ha : ¬ 0 < a := fun h => hb (h.trans hab)
      have hsame : hybrid_search query st (Except.ok page) aiSuggest limit offset b
          = hybrid_search query st (Except.ok page) aiSuggest limit offset a := by
        simp only [hybrid_search, hybrid_search_response_core, if_neg hb, if_neg ha]
      rw [hsame] at hi
      exact hi

/-- Auxiliary instance of the C8 statement at a concrete input, with its
hypothesis discharged. -/
theorem C8_min_score_monotonicity_witness :
    (0 : ℚ) < 1 ∧
    (hybrid_search "q" SearchType.hybrid (Except.ok pageS)
        (Except.ok []) 5 0 1).results.map SearchResult.id ⊆
      (hybrid_search "q" SearchType.hybrid (Except.ok pageS)
        (Except.ok []) 5 0 0).results.map SearchResult.id :=
  ⟨by norm_num,
    C8_min_score_monotonicity "q" SearchType.hybrid (Except.ok pageS)
      (Except.ok []) 5 0 0 1 (by norm_num)⟩

/-- C5: in semantic mode every record of the candidate window is scored —
by cosine similarity between the query embedding and the record embedding
when a (non-empty) embedding is present, by Jaccard token-set similarity
between the query and the concatenation of title and description
otherwise — so no record is excluded for lacking an embedding; the scored
set is sorted descending by score and `offset`/`limit` are applied
client-side over the full scored set, with `total_count` equal to the
size of the full scored set. -/
theorem C5_semantic_scoring (env : Env) (qe : List ℚ) (query : String)
    (filters : List (String × FilterVal)) (limit offset : Nat) :
    (semanticScoredPool env qe query filters).length
        = (semanticCandidateWindow env filters).length ∧
    (∀ r ∈ semanticCandidateWindow env filters,
      { r with score := some (semanticScore env qe query r) }
        ∈ semanticScoredPool env qe query filters) ∧
    (∀ r ∈ semanticCandidateWindow env filters, ∀ e, r.embedding = some e → e ≠ [] →
      semanticScore env qe query r = env.cosSim qe e) ∧
    (∀ r ∈ semanticCandidateWindow env filters,
      (r.embedding = none ∨ r.embedding = some []) →
      semanticScore env qe query r
        = calculate_similarity_score query (r.title ++ " " ++ r.description.getD "")) ∧
    (semanticScoredPool env qe query filters).Sorted
      (fun x y => y.score.getD 0 ≤ x.score.getD 0) ∧
    (semantic_search_core env qe query filters limit offset).data
        = ((semanticScoredPool env qe query filters).drop offset).take limit ∧
    (semantic_search_core env qe query filters limit offset).total_count
        = (semanticScoredPool env qe query filters).length := by
  refine ⟨?_, ?_, ?_, ?_, ?_, rfl, rfl⟩
  · rw [semanticScoredPool, sortByDesc_length, List.length_map]
  · intro r hr
    rw [semanticScoredPool, sortByDesc_mem]
    exact List.mem_map_of_mem _ hr
  · intro r _ e he hne
    obtain ⟨x, xs, rfl⟩ := List.exists_cons_of_ne_nil hne
    simp [semanticScore, he]
  · intro r _ hor
    rcases hor with h | h <;> simp [semanticScore, h]
  · exact sortByDesc_sorted _ _

/-- Auxiliary instance of the C5 statement at a concrete input: the
embedded record of the window is scored by the cosine oracle. -/
theorem C5_semantic_scoring_witness :
    recE ∈ semanticCandidateWindow (mkEnv [recE] (1 / 3)) [] ∧
    recE.embedding = some [1] ∧ ([1] : List ℚ) ≠ [] ∧
    semanticScore (mkEnv [recE] (1 / 3)) [2] "alpha" recE
      = (mkEnv [recE] (1 / 3)).cosSim [2] [1] :=
  ⟨by decide, rfl, by decide,
    (C5_semantic_scoring (mkEnv [recE] (1 / 3)) [2] "alpha" [] 10 0).2.2.1
      recE (by decide) [1] rfl (by decide)⟩


/-! ## Supporting lemmas for the soft-delete exclusion (C3) -/

theorem lookup_mem {β : Type} {l : List (String × β)} {k : String} {v : β}
    (h : l.lookup k = some v) : (k, v) ∈ l := by
  induction l with
  | nil => simp [List.lookup] at h
  | cons p rest ih =>
    rcases p with ⟨k', v'⟩
    rw [List.lookup_cons] at h
    by_cases hk : k = k'
    · subst hk
      simp at h
      subst h
      exact List.mem_cons_self _ _
    · rw [show (k == k') = false from beq_false_of_ne hk] at h
      exact List.mem_cons_of_mem _ (ih h)

theorem mem_dictInsert {β : Type} {k : String} {v : β} {l : List (String × β)}
    {kv : String × β} (h : kv ∈ dictInsert k v l) : kv = (k, v) ∨ kv ∈ l := by
  induction l with
  | nil => exact Or.inl (by simpa [dictInsert] using h)
  | cons p rest ih =>
    rcases p with ⟨k', v'⟩
    by_cases hk : k' = k
    · rw [dictInsert, if_pos hk] at h
      rcases List.mem_cons.mp h with h | h
      · exact Or.inl h
      · exact Or.inr (List.mem_cons_of_mem _ h)
    · rw [dictInsert, if_neg hk] at h
      rcases List.mem_cons.mp h with h | h
      · exact Or.inr (h ▸ List.mem_cons_self _ _)
      · rcases ih h with h | h
        · exact Or.inl h
        · exact Or.inr (List.mem_cons_of_mem _ h)

theorem dictInsert_mem_of_ne {β : Type} {k k' : String} (hne : k' ≠ k)
    (v : β) {v' : β} {l : List (String × β)} (h : (k', v') ∈ l) :
    (k', v') ∈ dictInsert k v l := by
  induction l with
  | nil => simp at h
  | cons p rest ih =>
    rcases p with ⟨k0, v0⟩
    by_cases hk : k0 = k
    · rw [dictInsert, if_pos hk]
      rcases List.mem_cons.mp h with h | h
      · exact absurd (hk ▸ congrArg Prod.fst h) hne
      · exact List.mem_cons_of_mem _ h
    · rw [dictInsert, if_neg hk]
      rcases List.mem_cons.mp h with h | h
      · exact h ▸ List.mem_cons_self _ _
      · exact List.mem_cons_of_mem _ (ih h)

theorem keys_of_mem_dictInsert {β : Type} {k k0 : String} {v : β}
    {l : List (String × β)} (h : k0 ∈ (dictInsert k v l).map Prod.fst) :
    k0 = k ∨ k0 ∈ l.map Prod.fst := by
  rcases List.mem_map.mp h with ⟨kv, hkv, rfl⟩
  rcases mem_dictInsert hkv with h | h
  · exact Or.inl (congrArg Prod.fst h)
  · exact Or.inr (List.mem_map_of_mem Prod.fst h)

theorem setLteCreatedAt_status_mem {e : Int} {conds : List (String × Cond)}
    {c : Cond} (h : ("status", c) ∈ conds) :
    ("status", c) ∈ setLteCreatedAt e conds := by
  unfold setLteCreatedAt
  split
  · exact dictInsert_mem_of_ne (by decide) _ h
  · exact dictInsert_mem_of_ne (by decide) _ h

theorem applyFilter_status_mem {acc : List (String × Cond)}
    {kv : String × FilterVal} {c : Cond} (hkv : kv.1 ≠ "status")
    (h : ("status", c) ∈ acc) : ("status", c) ∈ applyFilter acc kv := by
  unfold applyFilter
  split
  · split
    · split
      · exact setLteCreatedAt_status_mem (dictInsert_mem_of_ne (by decide) _ h)
      · exact dictInsert_mem_of_ne (by decide) _ h
    · split
      · exact setLteCreatedAt_status_mem h
      · exact h
  · exact dictInsert_mem_of_ne (by decide) _ h
  · exact dictInsert_mem_of_ne (by decide) _ h
  · exact dictInsert_mem_of_ne (Ne.symm hkv) _ h
  · exact dictInsert_mem_of_ne (Ne.symm hkv) _ h
  · exact dictInsert_mem_of_ne (Ne.symm hkv) _ h
  · exact dictInsert_mem_of_ne (Ne.symm hkv) _ h

theorem foldl_applyFilter_status_mem :
    ∀ (fs : List (String × FilterVal)) (acc : List (String × Cond)) (c : Cond),
      ("status", c) ∈ acc → (∀ kv ∈ fs, kv.1 ≠ "status") →
      ("status", c) ∈ fs.foldl applyFilter acc := by
  intro fs
  induction fs with
  | nil => intro acc c hacc _; exact hacc
  | cons kv rest ih =>
    intro acc c hacc hfs
    rw [List.foldl_cons]
    exact ih _ c
      (applyFilter_status_mem (hfs kv (List.mem_cons_self _ _)) hacc)
      (fun x hx => hfs x (List.mem_cons_of_mem _ hx))

theorem buildMatchConditions_status (query : String)
    (filters : List (String × FilterVal))
    (hst : "status" ∉ filters.map Prod.fst) :
    ("status", Cond.neStr "deleted") ∈ buildMatchConditions query filters := by
  unfold buildMatchConditions
  refine foldl_applyFilter_status_mem filters _ _ ?_ ?_
  · split
    · exact List.mem_cons_self _ _
    · exact dictInsert_mem_of_ne (by decide) _ (List.mem_cons_self _ _)
  · intro kv hkv heq
    exact hst (heq ▸ List.mem_map_of_mem Prod.fst hkv)

theorem search_records_mem (env : Env) (q : String)
    (filters : List (String × FilterVal)) (limit offset : Nat)
    {r : DataRecord} (hr : r ∈ (search_records env q filters limit offset).data) :
    ∃ r0, r0 ∈ env.store ∧
      matchesConds env (buildMatchConditions q filters) r0 = true ∧
      r.status = r0.status := by
  simp only [search_records] at hr
  have hr2 := List.mem_of_mem_drop (List.mem_of_mem_take hr)
  by_cases hq : pyStrip q = ""
  · rw [if_pos hq, if_pos hq] at hr2
    rw [sortByDesc_mem] at hr2
    have := List.mem_filter.mp hr2
    exact ⟨r, this.1, this.2, rfl⟩
  · rw [if_neg hq, if_neg hq] at hr2
    rw [sortByDesc_mem] at hr2
    rcases List.mem_map.mp hr2 with ⟨r0, hr0, rfl⟩
    have := List.mem_filter.mp hr0
    exact ⟨r0, this.1, this.2, rfl⟩

theorem search_records_excludes_deleted (env : Env) (q : String)
    (filters : List (String × FilterVal)) (limit offset : Nat)
    (hst : "status" ∉ filters.map Prod.fst) :
    ∀ r ∈ (search_records env q filters limit offset).data,
      r.status ≠ "deleted" := by
  intro r hr
  obtain ⟨r0, _, hm, hstat⟩ := search_records_mem env q filters limit offset hr
  have hcond := buildMatchConditions_status q filters hst
  rw [matchesConds] at hm
  have heval := List.all_eq_true.mp hm _ hcond
  have hde : evalCond env r0 "status" (Cond.neStr "deleted")
      = decide (r0.status ≠ "deleted") := rfl
  rw [hde] at heval
  rw [hstat]
  exact of_decide_eq_true heval

theorem semanticScoredPool_mem (env : Env) (qe : List ℚ) (query : String)
    (filters : List (String × FilterVal)) {r : DataRecord}
    (hr : r ∈ semanticScoredPool env qe query filters) :
    ∃ r0, r0 ∈ semanticCandidateWindow env filters ∧ r.status = r0.status := by
  rw [semanticScoredPool, sortByDesc_mem] at hr
  rcases List.mem_map.mp hr with ⟨r0, hr0, rfl⟩
  exact ⟨r0, hr0, rfl⟩

theorem semantic_search_excludes_deleted (env : Env)
    (eo : Except String (List ℚ)) (query : String)
    (filters : List (String × FilterVal)) (limit offset : Nat)
    (hst : "status" ∉ filters.map Prod.fst) :
    ∀ r ∈ (semantic_search env eo query filters limit offset).data,
      r.status ≠ "deleted" := by
  intro r hr
  rcases eo with e | qe
  · exact search_records_excludes_deleted env query filters limit offset hst r hr
  · have hr2 := List.mem_of_mem_drop (List.mem_of_mem_take hr)
    obtain ⟨r0, hw, hstat⟩ := semanticScoredPool_mem env qe query filters hr2
    rw [hstat]
    exact search_records_excludes_deleted env "" filters 1000 0 hst r0 hw

theorem foldlM_addKeywordRecord_prov (P : DataRecord → Prop) :
    ∀ (l : List DataRecord) (acc acc' : List (String × Fused)),
      (∀ kv ∈ acc, P kv.2.record) → (∀ r ∈ l, P r) →
      l.foldlM addKeywordRecord acc = Except.ok acc' →
      ∀ kv ∈ acc', P kv.2.record := by
  intro l
  induction l with
  | nil =>
    intro acc acc' hacc _ h
    obtain rfl : acc = acc' := Except.ok.inj h
    exact hacc
  | cons r rs ih =>
    intro acc acc' hacc hl h
    rw [List.foldlM_cons] at h
    rcases hs : r.score with _ | sc
    · rw [show addKeywordRecord acc r = Except.error "TypeError: NoneType * float" by
        rw [addKeywordRecord, hs]] at h
      exact Except.noConfusion h
    · rw [show addKeywordRecord acc r
          = Except.ok (dictInsert r.id { record := r, score := sc * (6 / 5) } acc) by
        rw [addKeywordRecord, hs]] at h
      refine ih _ acc' ?_ (fun x hx => hl x (List.mem_cons_of_mem _ hx)) h
      intro kv hkv
      rcases mem_dictInsert hkv with hkv | hkv
      · rw [hkv]
        exact hl r (List.mem_cons_self _ _)
      · exact hacc _ hkv

theorem foldlM_addSemanticRecord_prov (P : DataRecord → Prop) :
    ∀ (l : List DataRecord) (acc acc' : List (String × Fused)),
      (∀ kv ∈ acc, P kv.2.record) → (∀ r ∈ l, P r) →
      l.foldlM addSemanticRecord acc = Except.ok acc' →
      ∀ kv ∈ acc', P kv.2.record := by
  intro l
  induction l with
  | nil =>
    intro acc acc' hacc _ h
    obtain rfl : acc = acc' := Except.ok.inj h
    exact hacc
  | cons r rs ih =>
    intro acc acc' hacc hl h
    rw [List.foldlM_cons] at h
    rcases hs : r.score with _ | sc
    · rw [show addSemanticRecord acc r = Except.error "TypeError: NoneType + float" by
        rw [addSemanticRecord, hs]] at h
      exact Except.noConfusion h
    · rcases hlk : acc.lookup r.id with _ | f
      · rw [show addSemanticRecord acc r
            = Except.ok (dictInsert r.id { record := r, score := sc } acc) by
          rw [addSemanticRecord, hs, hlk]] at h
        refine ih _ acc' ?_ (fun x hx => hl x (List.mem_cons_of_mem _ hx)) h
        intro kv hkv
        rcases mem_dictInsert hkv with hkv | hkv
        · rw [hkv]
          exact hl r (List.mem_cons_self _ _)
        · exact hacc _ hkv
      · rw [show addSemanticRecord acc r
            = Except.ok (dictInsert r.id { f with score := f.score + sc } acc) by
          rw [addSemanticRecord, hs, hlk]] at h
        refine ih _ acc' ?_ (fun x hx => hl x (List.mem_cons_of_mem _ hx)) h
        intro kv hkv
        rcases mem_dictInsert hkv with hkv | hkv
        · rw [hkv]
          exact hacc (r.id, f) (lookup_mem hlk)
        · exact hacc _ hkv

theorem buildCombined_prov (P : DataRecord → Prop)
    (kw sem : List DataRecord) (acc : List (String × Fused))
    (hkw : ∀ r ∈ kw, P r) (hsem : ∀ r ∈ sem, P r)
    (h : buildCombined kw sem = Except.ok acc) :
    ∀ kv ∈ acc, P kv.2.record := by
  unfold buildCombined at h
  rcases hk : kw.foldlM addKeywordRecord [] with e | acc0
  · rw [hk] at h
    simp at h
  · rw [hk] at h
    have hacc0 : ∀ kv ∈ acc0, P kv.2.record :=
      foldlM_addKeywordRecord_prov P kw [] acc0 (by intro kv hkv; simp at hkv) hkw hk
    exact foldlM_addSemanticRecord_prov P sem acc0 acc hacc0 hsem h

theorem hybrid_search_combined_excludes_deleted (env : Env)
    (eo : Except String (List ℚ)) (query : String)
    (filters : List (String × FilterVal)) (limit offset : Nat)
    (hst : "status" ∉ filters.map Prod.fst) :
    ∀ r ∈ (hybrid_search_combined env eo query filters limit offset).data,
      r.status ≠ "deleted" := by
  intro r hr
  rw [hybrid_search_combined] at hr
  rcases hc : hybrid_search_combined_core env eo query filters limit offset
      with e | p
  · rw [hc] at hr
    exact search_records_excludes_deleted env query filters limit offset hst r hr
  · rw [hc] at hr
    simp only [hybrid_search_combined_core] at hc
    rcases hbc : buildCombined
        (keyword_search env query filters (limit * 2) 0).data
        (semantic_search env eo query filters (limit * 2) 0).data with e | acc
    · rw [hbc] at hc
      simp at hc
    · rw [hbc] at hc
      have hprov := buildCombined_prov (fun rec => rec.status ≠ "deleted") _ _ acc
        (search_records_excludes_deleted env query filters (limit * 2) 0 hst)
        (semantic_search_excludes_deleted env eo query filters (limit * 2) 0 hst)
        hbc
      have hp : p.data
          = (((sortByDesc (fun f => f.score) (acc.map Prod.snd)).drop offset).take
              limit).map (fun f => { f.record with score := some f.score }) := by
        rw [← Except.ok.inj hc]
      rw [hp] at hr
      rcases List.mem_map.mp hr with ⟨f, hf, rfl⟩
      have hf2 := List.mem_of_mem_drop (List.mem_of_mem_take hf)
      rw [sortByDesc_mem] at hf2
      rcases List.mem_map.mp hf2 with ⟨kv, hkv, rfl⟩
      exact hprov kv hkv

/-! ## Claim theorems: soft-delete exclusion (C3) -/

/-- C3 counterexample: the claim quantifies over every filter mapping, but
a caller-supplied `status` filter overwrites the store's status-not-equal
to-deleted condition — with a filters mapping binding `status` to
`deleted`, the keyword strategy returns a soft-deleted record. -/
theorem C3_counterexample :
    recDel.status = "deleted" ∧
    recDel ∈ (keyword_search (mkEnv [recDel] 0) ""
      [("status", FilterVal.str "deleted")] 50 0).data :=
  ⟨rfl, by decide⟩

/-- C3 as amended: for every query and every filter mapping that does not
itself bind the `status` key, no strategy ever returns a record whose
status is `"deleted"`. -/
theorem C3_amended_soft_delete (env : Env) (query : String)
    (filters : List (String × FilterVal)) (limit offset : Nat)
    (eo : Except String (List ℚ)) (sf : Option String)
    (hst : "status" ∉ filters.map Prod.fst) :
    (∀ r ∈ (keyword_search env query filters limit offset).data,
      r.status ≠ "deleted") ∧
    (∀ r ∈ (semantic_search env eo query filters limit offset).data,
      r.status ≠ "deleted") ∧
    (∀ r ∈ (fuzzy_search env sf query filters limit offset).data,
      r.status ≠ "deleted") ∧
    (∀ r ∈ (exact_search env sf query filters limit offset).data,
      r.status ≠ "deleted") ∧
    (∀ r ∈ (hybrid_search_combined env eo query filters limit offset).data,
      r.status ≠ "deleted") := by
  have hkw := search_records_excludes_deleted env query filters limit offset hst
  refine ⟨hkw, semantic_search_excludes_deleted env eo query filters limit offset hst,
    ?_, ?_, hybrid_search_combined_excludes_deleted env eo query filters limit offset hst⟩
  · rcases sf with _ | e
    · by_cases hkwds : (extract_keywords query).isEmpty = true
      · have hfc : fuzzy_search env none query filters limit offset
            = search_records env "" filters limit offset := by
          simp only [fuzzy_search, fuzzy_search_core, if_pos hkwds]
        rw [hfc]
        exact search_records_excludes_deleted env "" filters limit offset hst
      · have hfc : fuzzy_search env none query filters limit offset
            = search_records env ""
                (dictInsert "$or"
                  (FilterVal.orRegex (String.intercalate "|"
                    ((extract_keywords query).map (fun k => ".*" ++ k ++ ".*"))))
                  filters)
                limit offset := by
          simp only [fuzzy_search, fuzzy_search_core, if_neg hkwds]
        rw [hfc]
        refine search_records_excludes_deleted env "" _ limit offset ?_
        intro hmem
        rcases keys_of_mem_dictInsert hmem with h | h
        · exact absurd h (by decide)
        · exact hst h
    · exact hkw
  · rcases sf with _ | e
    · have hec : exact_search env none query filters limit offset
          = search_records env ""
              (dictInsert "$or" (FilterVal.orRegex ("\\b" ++ query ++ "\\b")) filters)
              limit offset := by
        simp only [exact_search, exact_search_core]
      rw [hec]
      refine search_records_excludes_deleted env "" _ limit offset ?_
      intro hmem
      rcases keys_of_mem_dictInsert hmem with h | h
      · exact absurd h (by decide)
      · exact hst h
    · exact hkw

/-- Auxiliary instance of the amended C3 statement at a concrete input,
with its hypothesis discharged. -/
theorem C3_amended_soft_delete_witness :
    "status" ∉ ([] : List (String × FilterVal)).map Prod.fst ∧
    ((∀ r ∈ (keyword_search (mkEnv [recDel] 0) "find" [] 50 0).data,
        r.status ≠ "deleted") ∧
      (∀ r ∈ (semantic_search (mkEnv [recDel] 0) (Except.ok []) "find" [] 50 0).data,
        r.status ≠ "deleted") ∧
      (∀ r ∈ (fuzzy_search (mkEnv [recDel] 0) none "find" [] 50 0).data,
        r.status ≠ "deleted") ∧
      (∀ r ∈ (exact_search (mkEnv [recDel] 0) none "find" [] 50 0).data,
        r.status ≠ "deleted") ∧
      (∀ r ∈ (hybrid_search_combined (mkEnv [recDel] 0) (Except.ok []) "find" [] 50 0).data,
        r.status ≠ "deleted")) :=
  ⟨by decide,
    C3_amended_soft_delete (mkEnv [recDel] 0) "find" [] 50 0 (Except.ok []) none
      (by decide)⟩


/-! ## Supporting lemmas and claim theorems for highlights (C6) -/

theorem generate_highlights_eq (r : DataRecord) (query : String) :
    generate_highlights r query =
      (if (titleVariants r query).isEmpty then []
       else [("title", titleVariants r query)]) ++
      (match r.description with
       | none => []
       | some d =>
         if d = "" then []
         else if (descVariants d query).isEmpty then []
         else [("description", descVariants d query)]) := by
  simp only [generate_highlights, titleVariants, descVariants]
  rcases r.description with _ | d
  · simp
  · by_cases hd : d = ""
    · simp [hd]
    · by_cases he : (((extract_keywords query).filter
          (fun kw => strContainsSub (pyLower d) (pyLower kw))).map
            (fun kw => pyReplace d kw ("<mark>" ++ kw ++ "</mark>"))).isEmpty
      · simp [hd, he]
      · simp [hd, he]

/-- C6 counterexample: the claim says the first literal occurrence of the
keyword is wrapped, but Python's `str.replace` wraps every occurrence: on
a title `"cat cat"` and query `"cat"` the only emitted variant marks both
occurrences, and the first-occurrence variant the claim requires is not
among the highlights. -/
theorem C6_counterexample :
    generate_highlights recCat "cat"
        = [("title", ["<mark>cat</mark> <mark>cat</mark>"])] ∧
    replaceFirst "cat cat" "cat" "<mark>cat</mark>" = "<mark>cat</mark> cat" ∧
    "<mark>cat</mark> cat" ∉ ["<mark>cat</mark> <mark>cat</mark>"] :=
  ⟨by decide, by decide, by decide⟩

/-- C6 as amended: for each extracted keyword occurring case-insensitively
in a field, the highlights for that field contain a variant of the field's
text in which every literal (case-sensitive) occurrence of the keyword is
wrapped; multiple keyword hits in one field yield a list of
separately-highlighted variants; no highlight entry is emitted for a field
with zero keyword hits (nor for an absent or empty description). -/
theorem C6_amended_highlights (r : DataRecord) (query : String) :
    (∀ kw ∈ extract_keywords query,
      strContainsSub (pyLower r.title) (pyLower kw) = true →
      ("title", titleVariants r query) ∈ generate_highlights r query ∧
      pyReplace r.title kw ("<mark>" ++ kw ++ "</mark>") ∈ titleVariants r query) ∧
    ((∀ kw ∈ extract_keywords query,
        strContainsSub (pyLower r.title) (pyLower kw) = false) →
      ∀ l, ("title", l) ∉ generate_highlights r query) ∧
    (∀ d, r.description = some d → d ≠ "" →
      ∀ kw ∈ extract_keywords query,
        strContainsSub (pyLower d) (pyLower kw) = true →
        ("description", descVariants d query) ∈ generate_highlights r query ∧
        pyReplace d kw ("<mark>" ++ kw ++ "</mark>") ∈ descVariants d query) ∧
    (∀ d, r.description = some d → d ≠ "" →
      (∀ kw ∈ extract_keywords query,
        strContainsSub (pyLower d) (pyLower kw) = false) →
      ∀ l, ("description", l) ∉ generate_highlights r query) ∧
    (r.description = none →
      ∀ l, ("description", l) ∉ generate_highlights r query) := by
  refine ⟨?_, ?_, ?_, ?_, ?_⟩
  · intro kw hkw hc
    have hmem : pyReplace r.title kw ("<mark>" ++ kw ++ "</mark>")
        ∈ titleVariants r query :=
      List.mem_map_of_mem _ (List.mem_filter.mpr ⟨hkw, hc⟩)
    have hne : ¬ (titleVariants r query).isEmpty := by
      rw [List.isEmpty_iff]
      exact List.ne_nil_of_mem hmem
    refine ⟨?_, hmem⟩
    rw [generate_highlights_eq]
    exact List.mem_append_left _ (by rw [if_neg hne]; exact List.mem_cons_self _ _)
  · intro hnone l hl
    have htv : titleVariants r query = [] := by
      rw [titleVariants, List.filter_eq_nil_iff.mpr
        (fun kw hkw => by simp [hnone kw hkw])]
      rfl
    rw [generate_highlights_eq, htv] at hl
    simp only [List.isEmpty_nil, if_pos, List.nil_append] at hl
    rcases hdesc : r.description with _ | d
    · rw [hdesc] at hl
      simp at hl
    · rw [hdesc] at hl
      by_cases hd : d = ""
      · simp [hd] at hl
      · by_cases he : (descVariants d query).isEmpty
        · simp [hd, he] at hl
        · simp [hd, he] at hl
  · intro d hd hdne kw hkw hc
    have hmem : pyReplace d kw ("<mark>" ++ kw ++ "</mark>")
        ∈ descVariants d query :=
      List.mem_map_of_mem _ (List.mem_filter.mpr ⟨hkw, hc⟩)
    have hne : ¬ (descVariants d query).isEmpty := by
      rw [List.isEmpty_iff]
      exact List.ne_nil_of_mem hmem
    refine ⟨?_, hmem⟩
    rw [generate_highlights_eq, hd]
    refine List.mem_append_right _ ?_
    show ("description", descVariants d query)
        ∈ (if d = "" then []
           else if (descVariants d query).isEmpty = true then []
           else [("description", descVariants d query)])
    rw [if_neg hdne, if_neg hne]
    exact List.mem_cons_self _ _
  · intro d hd hdne hnone l hl
    have hdv : descVariants d query = [] := by
      rw [descVariants, List.filter_eq_nil_iff.mpr
        (fun kw hkw => by simp [hnone kw hkw])]
      rfl
    rw [generate_highlights_eq, hd] at hl
    rcases List.mem_append.mp hl with hl | hl
    · by_cases he : (titleVariants r query).isEmpty
      · simp [he] at hl
      · rw [if_neg he] at hl
        simp at hl
    · have hl' : ("description", l)
          ∈ (if d = "" then []
             else if (descVariants d query).isEmpty = true then []
             else [("description", descVariants d query)]) := hl
      rw [if_neg hdne, hdv] at hl'
      simp at hl'
  · intro hd l hl
    rw [generate_highlights_eq, hd] at hl
    rcases List.mem_append.mp hl with hl | hl
    · by_cases he : (titleVariants r query).isEmpty
      · simp [he] at hl
      · rw [if_neg he] at hl
        simp at hl
    · have hl' : ("description", l) ∈ ([] : List (String × List String)) := hl
      simp at hl'

/-- Auxiliary instance of the amended C6 statement at a concrete input,
with its hypotheses discharged. -/
theorem C6_amended_highlights_witness :
    "cat" ∈ extract_keywords "cat" ∧
    strContainsSub (pyLower recCat.title) (pyLower "cat") = true ∧
    (("title", titleVariants recCat "cat") ∈ generate_highlights recCat "cat" ∧
      pyReplace recCat.title "cat" ("<mark>" ++ "cat" ++ "</mark>")
        ∈ titleVariants recCat "cat") :=
  ⟨by decide, by decide,
    (C6_amended_highlights recCat "cat").1 "cat" (by decide) (by decide)⟩


/-! ## Supporting lemmas for hybrid fusion (C1, C7) -/

theorem lookup_dictInsert_self {β : Type} (k : String) (v : β)
    (l : List (String × β)) : (dictInsert k v l).lookup k = some v := by
  induction l with
  | nil => simp [dictInsert, List.lookup]
  | cons p rest ih =>
    rcases p with ⟨k', v'⟩
    by_cases hk : k' = k
    · rw [dictInsert, if_pos hk, List.lookup_cons]
      simp
    · rw [dictInsert, if_neg hk, List.lookup_cons]
      rw [show (k == k') = false from beq_false_of_ne (Ne.symm hk)]
      exact ih

theorem lookup_dictInsert_ne {β : Type} {k k' : String} (h : k' ≠ k) (v : β)
    (l : List (String × β)) : (dictInsert k v l).lookup k' = l.lookup k' := by
  induction l with
  | nil =>
    rw [dictInsert, List.lookup_cons]
    rw [show (k' == k) = false from beq_false_of_ne h]
  | cons p rest ih =>
    rcases p with ⟨k0, v0⟩
    by_cases hk : k0 = k
    · subst hk
      rw [dictInsert, if_pos rfl, List.lookup_cons, List.lookup_cons]
      rw [show (k' == k0) = false from beq_false_of_ne h]
    · rw [dictInsert, if_neg hk, List.lookup_cons, List.lookup_cons]
      by_cases hk' : k' = k0
      · rw [show (k' == k0) = true from beq_iff_eq.mpr hk']
      · rw [show (k' == k0) = false from beq_false_of_ne hk']
        exact ih

theorem keys_dictInsert {β : Type} (k : String) (v : β)
    (l : List (String × β)) :
    (dictInsert k v l).map Prod.fst =
      if k ∈ l.map Prod.fst then l.map Prod.fst
      else l.map Prod.fst ++ [k] := by
  induction l with
  | nil => simp [dictInsert]
  | cons p rest ih =>
    rcases p with ⟨k', v'⟩
    by_cases hk : k' = k
    · subst hk
      rw [dictInsert, if_pos rfl]
      simp
    · rw [dictInsert, if_neg hk]
      simp only [List.map_cons]
      by_cases hmem : k ∈ rest.map Prod.fst
      · rw [if_pos (List.mem_cons_of_mem _ hmem)]
        rw [ih, if_pos hmem]
      · have : k ∉ (k' :: rest.map Prod.fst) := by
          intro hc
          rcases List.mem_cons.mp hc with hc | hc
          · exact hk hc.symm
          · exact hmem hc
        rw [if_neg this, ih, if_neg hmem]
        simp

theorem lookup_eq_none_keys {β : Type} (l : List (String × β)) (k : String) :
    l.lookup k = none ↔ k ∉ l.map Prod.fst := by
  induction l with
  | nil => simp [List.lookup]
  | cons p rest ih =>
    rcases p with ⟨k', v'⟩
    rw [List.lookup_cons]
    by_cases hk : k = k'
    · subst hk
      simp
    · rw [show (k == k') = false from beq_false_of_ne hk]
      simp only [List.map_cons, List.mem_cons]
      constructor
      · intro h hc
        rcases hc with hc | hc
        · exact hk hc
        · exact (ih.mp h) hc
      · intro h
        exact ih.mpr (fun hc => h (Or.inr hc))

theorem foldlM_addKeywordRecord_eq :
    ∀ (l : List DataRecord) (acc : List (String × Fused)),
      (∀ r ∈ l, r.score.isSome) →
      l.foldlM addKeywordRecord acc = Except.ok (l.foldl addKw1 acc) := by
  intro l
  induction l with
  | nil => intro acc _; rfl
  | cons r rs ih =>
    intro acc h
    rcases hs : r.score with _ | sc
    · have := h r (List.mem_cons_self _ _)
      rw [hs] at this
      simp at this
    · rw [List.foldlM_cons]
      have hstep : addKeywordRecord acc r = Except.ok (addKw1 acc r) := by
        simp [addKeywordRecord, addKw1, hs]
      rw [hstep]
      show rs.foldlM addKeywordRecord (addKw1 acc r) = _
      rw [ih (addKw1 acc r) (fun x hx => h x (List.mem_cons_of_mem _ hx))]
      rfl

theorem foldlM_addSemanticRecord_eq :
    ∀ (l : List DataRecord) (acc : List (String × Fused)),
      (∀ r ∈ l, r.score.isSome) →
      l.foldlM addSemanticRecord acc = Except.ok (l.foldl addSem1 acc) := by
  intro l
  induction l with
  | nil => intro acc _; rfl
  | cons r rs ih =>
    intro acc h
    rcases hs : r.score with _ | sc
    · have := h r (List.mem_cons_self _ _)
      rw [hs] at this
      simp at this
    · rw [List.foldlM_cons]
      have hstep : addSemanticRecord acc r = Except.ok (addSem1 acc r) := by
        rcases hlk : acc.lookup r.id with _ | f
        · simp [addSemanticRecord, addSem1, hs, hlk]
        · simp [addSemanticRecord, addSem1, hs, hlk]
      rw [hstep]
      show rs.foldlM addSemanticRecord (addSem1 acc r) = _
      rw [ih (addSem1 acc r) (fun x hx => h x (List.mem_cons_of_mem _ hx))]
      rfl

theorem buildCombined_eq (kw sem : List DataRecord)
    (hkw : ∀ r ∈ kw, r.score.isSome) (hsem : ∀ r ∈ sem, r.score.isSome) :
    buildCombined kw sem = Except.ok (sem.foldl addSem1 (kw.foldl addKw1 [])) := by
  rw [buildCombined, foldlM_addKeywordRecord_eq kw [] hkw]
  exact foldlM_addSemanticRecord_eq sem (kw.foldl addKw1 []) hsem


theorem keys_addKw1 (acc : List (String × Fused)) (r : DataRecord) :
    (addKw1 acc r).map Prod.fst =
      if r.id ∈ acc.map Prod.fst then acc.map Prod.fst
      else acc.map Prod.fst ++ [r.id] :=
  keys_dictInsert _ _ _

theorem keys_addSem1 (acc : List (String × Fused)) (r : DataRecord) :
    (addSem1 acc r).map Prod.fst =
      if r.id ∈ acc.map Prod.fst then acc.map Prod.fst
      else acc.map Prod.fst ++ [r.id] := by
  rw [addSem1]
  rcases hlk : acc.lookup r.id with _ | f
  · exact keys_dictInsert _ _ _
  · exact keys_dictInsert _ _ _

theorem keys_foldl_fused
    (f : List (String × Fused) → DataRecord → List (String × Fused))
    (hf : ∀ acc r, (f acc r).map Prod.fst
      = if r.id ∈ acc.map Prod.fst then acc.map Prod.fst
        else acc.map Prod.fst ++ [r.id]) :
    ∀ (l : List DataRecord) (acc : List (String × Fused)),
      (l.foldl f acc).map Prod.fst
        = (l.map DataRecord.id).foldl
            (fun a x => if x ∈ a then a else a ++ [x]) (acc.map Prod.fst) := by
  intro l
  induction l with
  | nil => intro acc; rfl
  | cons r rs ih =>
    intro acc
    rw [List.foldl_cons, List.map_cons, List.foldl_cons, ih (f acc r), hf]

theorem dedupFirst_eq_foldl (l : List String) :
    dedupFirst l = l.foldl (fun a x => if x ∈ a then a else a ++ [x]) [] := by
  rw [dedupFirst]
  congr 1
  funext a x
  by_cases h : x ∈ a
  · rw [if_pos ((List.elem_iff).mpr h), if_pos h]
  · rw [if_neg (fun hc => h ((List.elem_iff).mp hc)), if_neg h]

theorem foldl_dedupStep_nodup :
    ∀ (l : List String) (a : List String), a.Nodup →
      (l.foldl (fun a x => if x ∈ a then a else a ++ [x]) a).Nodup := by
  intro l
  induction l with
  | nil => intro a ha; exact ha
  | cons x xs ih =>
    intro a ha
    rw [List.foldl_cons]
    apply ih
    by_cases h : x ∈ a
    · rw [if_pos h]; exact ha
    · rw [if_neg h, List.nodup_append]
      exact ⟨ha, List.nodup_singleton x,
        fun y hy hc => h ((List.mem_singleton.mp hc) ▸ hy)⟩

theorem dedupFirst_nodup (l : List String) : (dedupFirst l).Nodup := by
  rw [dedupFirst_eq_foldl]
  exact foldl_dedupStep_nodup l [] List.nodup_nil

theorem lookup_of_mem_of_nodup_keys {β : Type} :
    ∀ {l : List (String × β)}, (l.map Prod.fst).Nodup →
      ∀ {k : String} {v : β}, (k, v) ∈ l → l.lookup k = some v := by
  intro l
  induction l with
  | nil => intro _ k v h; simp at h
  | cons p rest ih =>
    intro hn k v h
    rcases p with ⟨k', v'⟩
    rw [List.map_cons] at hn
    have hn' := List.nodup_cons.mp hn
    rw [List.lookup_cons]
    rcases List.mem_cons.mp h with heq | hmem
    · have hk : k = k' := congrArg Prod.fst heq
      have hv : v = v' := congrArg Prod.snd heq
      rw [show (k == k') = true from beq_iff_eq.mpr hk, hv]
    · by_cases hk : k = k'
      · exfalso
        apply hn'.1
        rw [← hk]
        exact List.mem_map.mpr ⟨(k, v), hmem, rfl⟩
      · rw [show (k == k') = false from beq_false_of_ne hk]
        exact ih hn'.2 hmem

theorem lookup_foldl_addKw1 :
    ∀ (l : List DataRecord) (acc : List (String × Fused)) (idv : String),
      (l.map DataRecord.id).Nodup →
      (∀ r ∈ l, r.id ∉ acc.map Prod.fst) →
      (l.foldl addKw1 acc).lookup idv =
        match l.find? (fun r => r.id = idv) with
        | some rk => some { record := rk, score := rk.score.getD 0 * (6 / 5) }
        | none => acc.lookup idv := by
  intro l
  induction l with
  | nil => intro acc idv _ _; rfl
  | cons r rs ih =>
    intro acc idv hn hdisj
    rw [List.map_cons] at hn
    have hn' := List.nodup_cons.mp hn
    have hrid : r.id ∉ acc.map Prod.fst := hdisj r (List.mem_cons_self _ _)
    have hdisj' : ∀ x ∈ rs, x.id ∉ (addKw1 acc r).map Prod.fst := by
      intro x hx
      rw [keys_addKw1, if_neg hrid]
      intro hc
      rcases List.mem_append.mp hc with hc | hc
      · exact hdisj x (List.mem_cons_of_mem _ hx) hc
      · exact hn'.1 ((List.mem_singleton.mp hc) ▸ List.mem_map_of_mem DataRecord.id hx)
    rw [List.foldl_cons, ih (addKw1 acc r) idv hn'.2 hdisj']
    by_cases hid : r.id = idv
    · have hfind : rs.find? (fun x => decide (x.id = idv)) = none := by
        refine List.find?_eq_none.mpr (fun x hx => ?_)
        simp only [decide_eq_true_eq]
        intro hc
        exact hn'.1 (hid ▸ hc ▸ List.mem_map_of_mem DataRecord.id hx)
      have hfc : (r :: rs).find? (fun x => decide (x.id = idv)) = some r := by
        simp [List.find?_cons, hid]
      rw [hfind, hfc, ← hid]
      show (addKw1 acc r).lookup r.id = _
      rw [addKw1, lookup_dictInsert_self]
    · have hfc : (r :: rs).find? (fun x => decide (x.id = idv))
          = rs.find? (fun x => decide (x.id = idv)) := by
        simp [List.find?_cons, hid]
      have hlk2 : (addKw1 acc r).lookup idv = acc.lookup idv := by
        rw [addKw1]
        exact lookup_dictInsert_ne (fun hc => hid hc.symm) _ acc
      rw [hfc, hlk2]

theorem lookup_foldl_addSem1 :
    ∀ (l : List DataRecord) (acc : List (String × Fused)) (idv : String),
      (l.map DataRecord.id).Nodup →
      (l.foldl addSem1 acc).lookup idv =
        match l.find? (fun r => r.id = idv) with
        | some rsr =>
          match acc.lookup idv with
          | some f => some { f with score := f.score + rsr.score.getD 0 }
          | none => some { record := rsr, score := rsr.score.getD 0 }
        | none => acc.lookup idv := by
  intro l
  induction l with
  | nil => intro acc idv _; rfl
  | cons r rs ih =>
    intro acc idv hn
    rw [List.map_cons] at hn
    have hn' := List.nodup_cons.mp hn
    rw [List.foldl_cons, ih (addSem1 acc r) idv hn'.2]
    by_cases hid : r.id = idv
    · have hfind : rs.find? (fun x => decide (x.id = idv)) = none := by
        refine List.find?_eq_none.mpr (fun x hx => ?_)
        simp only [decide_eq_true_eq]
        intro hc
        exact hn'.1 (hid ▸ hc ▸ List.mem_map_of_mem DataRecord.id hx)
      have hfc : (r :: rs).find? (fun x => decide (x.id = idv)) = some r := by
        simp [List.find?_cons, hid]
      rw [hfind, hfc, ← hid]
      rcases hlk : acc.lookup r.id with _ | f
      · have haddsem : addSem1 acc r
            = dictInsert r.id { record := r, score := r.score.getD 0 } acc := by
          rw [addSem1, hlk]
        rw [haddsem, lookup_dictInsert_self]
      · have haddsem : addSem1 acc r
            = dictInsert r.id { f with score := f.score + r.score.getD 0 } acc := by
          rw [addSem1, hlk]
        rw [haddsem, lookup_dictInsert_self]
    · have hfc : (r :: rs).find? (fun x => decide (x.id = idv))
          = rs.find? (fun x => decide (x.id = idv)) := by
        simp [List.find?_cons, hid]
      rw [hfc]
      have hlkeq : (addSem1 acc r).lookup idv = acc.lookup idv := by
        rcases hlk : acc.lookup r.id with _ | f
        · have haddsem : addSem1 acc r
              = dictInsert r.id { record := r, score := r.score.getD 0 } acc := by
            rw [addSem1, hlk]
          rw [haddsem]
          exact lookup_dictInsert_ne (fun hc => hid hc.symm) _ acc
        · have haddsem : addSem1 acc r
              = dictInsert r.id { f with score := f.score + r.score.getD 0 } acc := by
            rw [addSem1, hlk]
          rw [haddsem]
          exact lookup_dictInsert_ne (fun hc => hid hc.symm) _ acc
      simp only [hlkeq]

theorem lookup_fused_pool (kw sem : List DataRecord)
    (hkwn : (kw.map DataRecord.id).Nodup)
    (hsemn : (sem.map DataRecord.id).Nodup) (idv : String) :
    (sem.foldl addSem1 (kw.foldl addKw1 [])).lookup idv = mergeSpec kw sem idv := by
  rw [lookup_foldl_addSem1 sem _ idv hsemn,
    lookup_foldl_addKw1 kw [] idv hkwn (by intro r _; simp)]
  rcases hkf : kw.find? (fun r => r.id = idv) with _ | rk <;>
    rcases hsf : sem.find? (fun r => r.id = idv) with _ | rsr <;>
      simp [mergeSpec, hkf, hsf, List.lookup]

theorem keys_fused_pool (kw sem : List DataRecord) :
    (sem.foldl addSem1 (kw.foldl addKw1 [])).map Prod.fst
      = dedupFirst (kw.map DataRecord.id ++ sem.map DataRecord.id) := by
  rw [keys_foldl_fused addSem1 keys_addSem1 sem _,
    keys_foldl_fused addKw1 keys_addKw1 kw []]
  rw [dedupFirst_eq_foldl, List.foldl_append]
  rfl


/-! ## Claim theorems: hybrid fusion (C1, C7) -/

/-- C1: the hybrid fused candidate pool is built from the keyword and
semantic strategies' results, each requested with `2 × limit` candidates
at offset 0; candidates merge by record id — a record in both sets gets
keyword score × 1.2 plus semantic score, a record in one set keeps that
set's (possibly boosted) score; the merged pool is sorted descending by
fused score, the caller's original `offset`/`limit` slice of the full
sorted pool is returned, and `total_count` is the size of the full fused
pool (one entry per distinct id of the two candidate sets). -/
theorem C1_hybrid_fusion (env : Env) (eo : Except String (List ℚ))
    (query : String) (filters : List (String × FilterVal)) (limit offset : Nat)
    (hkw : ∀ r ∈ (keyword_search env query filters (limit * 2) 0).data,
      r.score.isSome)
    (hsem : ∀ r ∈ (semantic_search env eo query filters (limit * 2) 0).data,
      r.score.isSome)
    (hkwn : ((keyword_search env query filters (limit * 2) 0).data.map
      DataRecord.id).Nodup)
    (hsemn : ((semantic_search env eo query filters (limit * 2) 0).data.map
      DataRecord.id).Nodup) :
    ∃ acc : List (String × Fused),
      buildCombined (keyword_search env query filters (limit * 2) 0).data
          (semantic_search env eo query filters (limit * 2) 0).data
        = Except.ok acc ∧
      (∀ idv, acc.lookup idv
        = mergeSpec (keyword_search env query filters (limit * 2) 0).data
            (semantic_search env eo query filters (limit * 2) 0).data idv) ∧
      acc.map Prod.fst
        = dedupFirst
            ((keyword_search env query filters (limit * 2) 0).data.map DataRecord.id
              ++ (semantic_search env eo query filters (limit * 2) 0).data.map
                  DataRecord.id) ∧
      (sortByDesc (fun f => f.score) (acc.map Prod.snd)).Sorted
        (fun x y => y.score ≤ x.score) ∧
      hybrid_search_combined env eo query filters limit offset =
        { data := (((sortByDesc (fun f => f.score) (acc.map Prod.snd)).drop
              offset).take limit).map
                (fun f => { f.record with score := some f.score })
          total_count := (sortByDesc (fun f => f.score) (acc.map Prod.snd)).length
          offset := offset
          limit := limit
          returned_count := ((((sortByDesc (fun f => f.score)
              (acc.map Prod.snd)).drop offset).take limit).map
                (fun f => { f.record with score := some f.score })).length } := by
  refine ⟨(semantic_search env eo query filters (limit * 2) 0).data.foldl addSem1
    ((keyword_search env query filters (limit * 2) 0).data.foldl addKw1 []),
    buildCombined_eq _ _ hkw hsem, lookup_fused_pool _ _ hkwn hsemn,
    keys_fused_pool _ _, sortByDesc_sorted _ _, ?_⟩
  have hcore : hybrid_search_combined_core env eo query filters limit offset
      = Except.ok
        { data := (((sortByDesc (fun f => f.score)
              (((semantic_search env eo query filters (limit * 2) 0).data.foldl addSem1
                ((keyword_search env query filters (limit * 2) 0).data.foldl addKw1
                  [])).map Prod.snd)).drop offset).take limit).map
                (fun f => { f.record with score := some f.score })
          total_count := (sortByDesc (fun f => f.score)
            (((semantic_search env eo query filters (limit * 2) 0).data.foldl addSem1
              ((keyword_search env query filters (limit * 2) 0).data.foldl addKw1
                [])).map Prod.snd)).length
          offset := offset
          limit := limit
          returned_count := ((((sortByDesc (fun f => f.score)
              (((semantic_search env eo query filters (limit * 2) 0).data.foldl addSem1
                ((keyword_search env query filters (limit * 2) 0).data.foldl addKw1
                  [])).map Prod.snd)).drop offset).take limit).map
                (fun f => { f.record with score := some f.score })).length } := by
    simp only [hybrid_search_combined_core, buildCombined_eq _ _ hkw hsem]
  simp only [hybrid_search_combined, hcore]

/-- Auxiliary instance of the C1 statement at a concrete input, with every
hypothesis discharged. -/
theorem C1_hybrid_fusion_witness :
    (∀ r ∈ (keyword_search (mkEnv [recE] 2) "alpha" [] (5 * 2) 0).data,
      r.score.isSome) ∧
    (∀ r ∈ (semantic_search (mkEnv [recE] 2) (Except.ok [1]) "alpha" [] (5 * 2) 0).data,
      r.score.isSome) ∧
    ((keyword_search (mkEnv [recE] 2) "alpha" [] (5 * 2) 0).data.map
      DataRecord.id).Nodup ∧
    ((semantic_search (mkEnv [recE] 2) (Except.ok [1]) "alpha" [] (5 * 2) 0).data.map
      DataRecord.id).Nodup ∧
    (∃ acc : List (String × Fused),
      buildCombined (keyword_search (mkEnv [recE] 2) "alpha" [] (5 * 2) 0).data
          (semantic_search (mkEnv [recE] 2) (Except.ok [1]) "alpha" [] (5 * 2) 0).data
        = Except.ok acc ∧
      (∀ idv, acc.lookup idv
        = mergeSpec (keyword_search (mkEnv [recE] 2) "alpha" [] (5 * 2) 0).data
            (semantic_search (mkEnv [recE] 2) (Except.ok [1]) "alpha" [] (5 * 2) 0).data
            idv) ∧
      acc.map Prod.fst
        = dedupFirst
            ((keyword_search (mkEnv [recE] 2) "alpha" [] (5 * 2) 0).data.map
                DataRecord.id
              ++ (semantic_search (mkEnv [recE] 2) (Except.ok [1]) "alpha" []
                  (5 * 2) 0).data.map DataRecord.id) ∧
      (sortByDesc (fun f => f.score) (acc.map Prod.snd)).Sorted
        (fun x y => y.score ≤ x.score) ∧
      hybrid_search_combined (mkEnv [recE] 2) (Except.ok [1]) "alpha" [] 5 0 =
        { data := (((sortByDesc (fun f => f.score) (acc.map Prod.snd)).drop 0).take
              5).map (fun f => { f.record with score := some f.score })
          total_count := (sortByDesc (fun f => f.score) (acc.map Prod.snd)).length
          offset := 0
          limit := 5
          returned_count := ((((sortByDesc (fun f => f.score)
              (acc.map Prod.snd)).drop 0).take 5).map
                (fun f => { f.record with score := some f.score })).length }) :=
  ⟨by decide, by decide, by decide, by decide,
    C1_hybrid_fusion (mkEnv [recE] 2) (Except.ok [1]) "alpha" [] 5 0
      (by decide) (by decide) (by decide) (by decide)⟩


/-- C7 counterexample: fusion sums the two contributions, so a negative
semantic score (cosine similarity can be negative) pulls the fused score
below the boosted keyword contribution: with keyword score 1 and semantic
score −1 for the same record, the fused score 1 × 1.2 − 1 is strictly
below 1 × 1.2. -/
theorem C7_counterexample :
    ((hybrid_search_combined (mkEnv [recE] (-1)) (Except.ok [1]) "alpha" [] 5 0).data.map
        (fun r => r.score)) = [some ((1 : ℚ) * (6 / 5) + -1)] ∧
    ((keyword_search (mkEnv [recE] (-1)) "alpha" [] 10 0).data.map
        (fun r => r.score)) = [some 1] ∧
    ((semantic_search (mkEnv [recE] (-1)) (Except.ok [1]) "alpha" [] 10 0).data.map
        (fun r => r.score)) = [some (-1)] ∧
    (1 : ℚ) * (6 / 5) + -1 < 1 * (6 / 5) :=
  ⟨rfl, rfl, rfl, by norm_num⟩

/-- C7 as amended: provided every keyword-strategy score and every
semantic-strategy score in the two candidate sets is nonnegative (always
true of the store's text scores and of the Jaccard fallback, but not
forced for cosine similarities), every returned hybrid record's fused
score is at least its boosted keyword contribution and at least its
semantic contribution. -/
theorem C7_amended_fusion_lower_bound (env : Env) (eo : Except String (List ℚ))
    (query : String) (filters : List (String × FilterVal)) (limit offset : Nat)
    (hkw : ∀ r ∈ (keyword_search env query filters (limit * 2) 0).data,
      r.score.isSome)
    (hsem : ∀ r ∈ (semantic_search env eo query filters (limit * 2) 0).data,
      r.score.isSome)
    (hkwn : ((keyword_search env query filters (limit * 2) 0).data.map
      DataRecord.id).Nodup)
    (hsemn : ((semantic_search env eo query filters (limit * 2) 0).data.map
      DataRecord.id).Nodup)
    (hkwpos : ∀ r ∈ (keyword_search env query filters (limit * 2) 0).data,
      0 ≤ r.score.getD 0)
    (hsempos : ∀ r ∈ (semantic_search env eo query filters (limit * 2) 0).data,
      0 ≤ r.score.getD 0) :
    ∀ rec ∈ (hybrid_search_combined env eo query filters limit offset).data,
      (∀ rk ∈ (keyword_search env query filters (limit * 2) 0).data,
        rk.id = rec.id → rk.score.getD 0 * (6 / 5) ≤ rec.score.getD 0) ∧
      (∀ rs ∈ (semantic_search env eo query filters (limit * 2) 0).data,
        rs.id = rec.id → rs.score.getD 0 ≤ rec.score.getD 0) := by
  intro rec hrec
  obtain ⟨acc, hbc, hlkspec, hkeys, _, hout⟩ :=
    C1_hybrid_fusion env eo query filters limit offset hkw hsem hkwn hsemn
  rw [hout] at hrec
  rcases List.mem_map.mp hrec with ⟨f, hf, hrecf⟩
  have hfpool := List.mem_of_mem_drop (List.mem_of_mem_take hf)
  rw [sortByDesc_mem] at hfpool
  rcases List.mem_map.mp hfpool with ⟨kv, hkv, hkvf⟩
  have hkeysnodup : (acc.map Prod.fst).Nodup := by
    rw [hkeys]
    exact dedupFirst_nodup _
  have hlk : acc.lookup kv.1 = some kv.2 :=
    lookup_of_mem_of_nodup_keys hkeysnodup hkv
  have hms : mergeSpec (keyword_search env query filters (limit * 2) 0).data
      (semantic_search env eo query filters (limit * 2) 0).data kv.1
      = some f := by
    rw [← hlkspec kv.1, hlk, hkvf]
  have hrecid : rec.id = f.record.id := by
    rw [← hrecf]
  have hrecscore : rec.score.getD 0 = f.score := by
    rw [← hrecf]
    rfl
  rcases hkf : (keyword_search env query filters (limit * 2) 0).data.find?
      (fun r => r.id = kv.1) with _ | rk0 <;>
    rcases hsf : (semantic_search env eo query filters (limit * 2) 0).data.find?
        (fun r => r.id = kv.1) with _ | rs0
  · rw [mergeSpec, hkf, hsf] at hms
    exact Option.noConfusion hms
  · rw [mergeSpec, hkf, hsf] at hms
    have hfeq : f = ⟨rs0, rs0.score.getD 0⟩ :=
      (Option.some.inj hms).symm
    have hid0 : rs0.id = kv.1 := by simpa using List.find?_some hsf
    have hridkv : rec.id = kv.1 := by
      rw [hrecid, congrArg Fused.record hfeq, hid0]
    constructor
    · intro rk hrk hrkid
      exfalso
      have hne := List.find?_eq_none.mp hkf rk hrk
      rw [decide_eq_true_eq] at hne
      exact hne (by rw [hrkid, hridkv])
    · intro rs hrs hrsid
      have hrseq : rs = rs0 := List.inj_on_of_nodup_map hsemn hrs
        (List.mem_of_find?_eq_some hsf) (by rw [hrsid, hridkv, hid0])
      rw [hrecscore, hrseq, congrArg Fused.score hfeq]
  · rw [mergeSpec, hkf, hsf] at hms
    have hfeq : f = ⟨rk0, rk0.score.getD 0 * (6 / 5)⟩ :=
      (Option.some.inj hms).symm
    have hid0 : rk0.id = kv.1 := by simpa using List.find?_some hkf
    have hridkv : rec.id = kv.1 := by
      rw [hrecid, congrArg Fused.record hfeq, hid0]
    constructor
    · intro rk hrk hrkid
      have hrkeq : rk = rk0 := List.inj_on_of_nodup_map hkwn hrk
        (List.mem_of_find?_eq_some hkf) (by rw [hrkid, hridkv, hid0])
      rw [hrecscore, hrkeq, congrArg Fused.score hfeq]
    · intro rs hrs hrsid
      exfalso
      have hne := List.find?_eq_none.mp hsf rs hrs
      rw [decide_eq_true_eq] at hne
      exact hne (by rw [hrsid, hridkv])
  · rw [mergeSpec, hkf, hsf] at hms
    have hfeq : f = ⟨rk0, rk0.score.getD 0 * (6 / 5) + rs0.score.getD 0⟩ :=
      (Option.some.inj hms).symm
    have hidk : rk0.id = kv.1 := by simpa using List.find?_some hkf
    have hids : rs0.id = kv.1 := by simpa using List.find?_some hsf
    have hridkv : rec.id = kv.1 := by
      rw [hrecid, congrArg Fused.record hfeq, hidk]
    constructor
    · intro rk hrk hrkid
      have hrkeq : rk = rk0 := List.inj_on_of_nodup_map hkwn hrk
        (List.mem_of_find?_eq_some hkf) (by rw [hrkid, hridkv, hidk])
      rw [hrecscore, hrkeq, congrArg Fused.score hfeq]
      exact le_add_of_nonneg_right
        (hsempos rs0 (List.mem_of_find?_eq_some hsf))
    · intro rs hrs hrsid
      have hrseq : rs = rs0 := List.inj_on_of_nodup_map hsemn hrs
        (List.mem_of_find?_eq_some hsf) (by rw [hrsid, hridkv, hids])
      rw [hrecscore, hrseq, congrArg Fused.score hfeq]
      refine le_add_of_nonneg_left (mul_nonneg
        (hkwpos rk0 (List.mem_of_find?_eq_some hkf)) (by norm_num))

/-- Auxiliary instance of the amended C7 statement at a concrete input,
with every hypothesis discharged. -/
theorem C7_amended_fusion_lower_bound_witness :
    (∀ r ∈ (keyword_search (mkEnv [recE] 2) "alpha" [] (5 * 2) 0).data,
      r.score.isSome) ∧
    (∀ r ∈ (semantic_search (mkEnv [recE] 2) (Except.ok [1]) "alpha" [] (5 * 2) 0).data,
      r.score.isSome) ∧
    (∀ r ∈ (keyword_search (mkEnv [recE] 2) "alpha" [] (5 * 2) 0).data,
      0 ≤ r.score.getD 0) ∧
    (∀ r ∈ (semantic_search (mkEnv [recE] 2) (Except.ok [1]) "alpha" [] (5 * 2) 0).data,
      0 ≤ r.score.getD 0) ∧
    (∀ rec ∈ (hybrid_search_combined (mkEnv [recE] 2) (Except.ok [1]) "alpha" [] 5 0).data,
      (∀ rk ∈ (keyword_search (mkEnv [recE] 2) "alpha" [] (5 * 2) 0).data,
        rk.id = rec.id → rk.score.getD 0 * (6 / 5) ≤ rec.score.getD 0) ∧
      (∀ rs ∈ (semantic_search (mkEnv [recE] 2) (Except.ok [1]) "alpha" [] (5 * 2) 0).data,
        rs.id = rec.id → rs.score.getD 0 ≤ rec.score.getD 0)) :=
  ⟨by decide, by decide, by decide, by decide,
    C7_amended_fusion_lower_bound (mkEnv [recE] 2) (Except.ok [1]) "alpha" [] 5 0
      (by decide) (by decide) (by decide) (by decide) (by decide) (by decide)⟩


/-! ## Claim theorems: the query interpreter (C9) -/

/-- C9 counterexample: the claim orders the fallbacks as first-to-last
brace substring, then fenced block; the source checks for a ```json fence
first.  On a reply whose valid JSON precedes a trailing fence marker, the
first-to-last-brace substring parses, yet the source takes the fence
branch, finds no brace after the marker, and degrades. -/
theorem C9_counterexample :
    (jsonLoads "\x7b\"intent\": \"x\"\x7d ```json").isNone = true ∧
    (jsonLoads (sliceFirstToLast "\x7b\"intent\": \"x\"\x7d ```json")).isSome
      = true ∧
    process_search_query (Except.ok "\x7b\"intent\": \"x\"\x7d ```json")
        "hello world" "2024-01-01T00:00:00"
      = InterpretResult.degraded ["hello", "world"] (1 / 2)
          "No valid JSON found in markdown" :=
  ⟨rfl, rfl, rfl⟩

/-- C9 as amended: the interpreter strips the oracle reply and attempts a
direct JSON parse; if that fails and the reply contains a ```json fence,
it parses from the first opening brace at or after the fence to one past
the last closing brace (degrading when no such brace exists); otherwise,
when the reply contains both braces, it parses the substring from the
first opening brace to the last closing brace; a successfully parsed JSON
object is returned augmented with `original_query = query` and a
`processed_at` timestamp, while a successful parse of a non-object value
raises `TypeError` at the `original_query` item assignment and degrades;
any failure at any stage — oracle errors included — returns, without
raising, a degraded result whose keywords are the query split on
whitespace, whose confidence is 0.5, and which carries an error reason. -/
theorem C9_amended_parse_cascade :
    (∀ (e q now : String),
      process_search_query (Except.error e) q now
        = InterpretResult.degraded (pySplitWs q) (1 / 2) e) ∧
    (∀ (raw q now : String), pyStrip raw = "" →
      process_search_query (Except.ok raw) q now
        = InterpretResult.degraded (pySplitWs q) (1 / 2) "Empty AI response") ∧
    (∀ (raw q now : String) (kvs : List (String × Json)),
      jsonLoads (pyStrip raw) = some (Json.obj kvs) →
      process_search_query (Except.ok raw) q now
        = InterpretResult.parsed (Json.obj
            (dictInsert "processed_at" (Json.str now)
              (dictInsert "original_query" (Json.str q) kvs)))) ∧
    (∀ (raw q now : String) (j : Json),
      jsonLoads (pyStrip raw) = some j →
      (∀ kvs : List (String × Json), j ≠ Json.obj kvs) →
      process_search_query (Except.ok raw) q now
        = InterpretResult.degraded (pySplitWs q) (1 / 2) "TypeError") ∧
    (∀ (raw q now : String),
      jsonLoads (pyStrip raw) = none →
      strContainsSub (pyStrip raw) "```json" = true →
      findCharFrom (pyStrip raw).data '{'
          ((findSubIdx (pyStrip raw).data "```json".data).getD 0) = none →
      process_search_query (Except.ok raw) q now
        = InterpretResult.degraded (pySplitWs q) (1 / 2)
            "No valid JSON found in markdown") ∧
    (∀ (raw q now : String) (js : Nat) (kvs : List (String × Json)),
      jsonLoads (pyStrip raw) = none →
      strContainsSub (pyStrip raw) "```json" = true →
      findCharFrom (pyStrip raw).data '{'
          ((findSubIdx (pyStrip raw).data "```json".data).getD 0) = some js →
      jsonLoads (String.mk (pySlice (pyStrip raw).data js
          (rbraceEnd (pyStrip raw)))) = some (Json.obj kvs) →
      process_search_query (Except.ok raw) q now
        = InterpretResult.parsed (Json.obj
            (dictInsert "processed_at" (Json.str now)
              (dictInsert "original_query" (Json.str q) kvs)))) ∧
    (∀ (raw q now : String) (kvs : List (String × Json)),
      jsonLoads (pyStrip raw) = none →
      strContainsSub (pyStrip raw) "```json" = false →
      (strContainsSub (pyStrip raw) "\x7b"
        && strContainsSub (pyStrip raw) "\x7d") = true →
      jsonLoads (sliceFirstToLast (pyStrip raw)) = some (Json.obj kvs) →
      process_search_query (Except.ok raw) q now
        = InterpretResult.parsed (Json.obj
            (dictInsert "processed_at" (Json.str now)
              (dictInsert "original_query" (Json.str q) kvs)))) ∧
    (∀ (raw q now : String) (k : List String) (c : ℚ) (e : String),
      process_search_query (Except.ok raw) q now
          = InterpretResult.degraded k c e →
      k = pySplitWs q ∧ c = 1 / 2) := by
  refine ⟨fun e q now => rfl, ?_, ?_, ?_, ?_, ?_, ?_, ?_⟩
  · intro raw q now h
    simp [process_search_query, process_search_query_core, h]
  · intro raw q now kvs hj
    by_cases h0 : pyStrip raw = ""
    · rw [h0] at hj
      exact Option.noConfusion
        (show (none : Option Json) = some (Json.obj kvs) from hj)
    · simp [process_search_query, process_search_query_core, if_neg h0, hj,
        augmentResult]
  · intro raw q now j hj hne
    by_cases h0 : pyStrip raw = ""
    · rw [h0] at hj
      exact Option.noConfusion (show (none : Option Json) = some j from hj)
    · have haug : augmentResult q now j = Except.error "TypeError" := by
        cases j with
        | obj kvs => exact absurd rfl (hne kvs)
        | null => rfl
        | bool b => rfl
        | num n => rfl
        | str s => rfl
        | arr es => rfl
      simp [process_search_query, process_search_query_core, if_neg h0, hj,
        haug]
  · intro raw q now hnone hfence hfind
    by_cases h0 : pyStrip raw = ""
    · rw [h0] at hfence
      exact absurd hfence (by decide)
    · simp [process_search_query, process_search_query_core, if_neg h0, hnone,
        hfence, hfind]
  · intro raw q now js kvs hnone hfence hfind hslice
    by_cases h0 : pyStrip raw = ""
    · rw [h0] at hfence
      exact absurd hfence (by decide)
    · simp [process_search_query, process_search_query_core, if_neg h0, hnone,
        hfence, hfind, hslice, augmentResult]
  · intro raw q now kvs hnone hfence hbr hslice
    by_cases h0 : pyStrip raw = ""
    · rw [h0] at hbr
      exact absurd hbr (by decide)
    · simp only [sliceFirstToLast] at hslice
      simp [process_search_query, process_search_query_core, if_neg h0, hnone,
        hfence, hbr, hslice, augmentResult]
  · intro raw q now k c e h
    rcases hc : process_search_query_core raw with e' | j
    · rw [show process_search_query (Except.ok raw) q now
          = InterpretResult.degraded (pySplitWs q) (1 / 2) e' from by
        simp [process_search_query, hc]] at h
      rw [InterpretResult.degraded.injEq] at h
      exact ⟨h.1.symm, h.2.1.symm⟩
    · rcases ha : augmentResult q now j with e2 | j2
      · rw [show process_search_query (Except.ok raw) q now
            = InterpretResult.degraded (pySplitWs q) (1 / 2) e2 from by
          simp [process_search_query, hc, ha]] at h
        rw [InterpretResult.degraded.injEq] at h
        exact ⟨h.1.symm, h.2.1.symm⟩
      · rw [show process_search_query (Except.ok raw) q now
            = InterpretResult.parsed j2 from by
          simp [process_search_query, hc, ha]] at h
        exact InterpretResult.noConfusion h

/-- Auxiliary instance of the amended C9 statement at a concrete input,
with its hypothesis discharged: a fence-free reply that parses directly
to an object, returned with the `original_query` and `processed_at`
augmentation appended. -/
theorem C9_amended_parse_cascade_witness :
    jsonLoads (pyStrip " \x7b\"intent\": \"search\"\x7d ")
      = some (Json.obj [("intent", Json.str "search")]) ∧
    process_search_query (Except.ok " \x7b\"intent\": \"search\"\x7d ")
        "hello world" "2024-01-01T00:00:00"
      = InterpretResult.parsed (Json.obj [("intent", Json.str "search"),
          ("original_query", Json.str "hello world"),
          ("processed_at", Json.str "2024-01-01T00:00:00")]) :=
  ⟨rfl, C9_amended_parse_cascade.2.2.1 " \x7b\"intent\": \"search\"\x7d "
    "hello world" "2024-01-01T00:00:00" [("intent", Json.str "search")] rfl⟩

end Askly